import Mathlib

/-!
Verification of the drone delivery planner.

This file contains a shallow embedding, in Lean 4, of the planning core of
the repository: the network model (models/city.py), the package and drone
records (models/package.py, models/drone.py), the memoized Dijkstra engine
(algorithms/shortest_path.py), the package selector
(algorithms/package_selector.py) and the delivery planner
(delivery_planner.py), together with theorems settling the specified
properties of these components.

Modelling conventions:
* Python dicts become association lists holding their insertion order;
  writing to an existing key replaces the value in place, writing a fresh
  key appends (exactly the Python dict semantics that iteration order
  depends on).
* Python floats become exact rationals.  The out-of-band distance
  float("inf") becomes the value none of Option Rat, so the unreachable
  sentinel is disjoint from every finite distance by construction.
* The binary heap of heapq becomes a list of entries together with a
  pop-minimum operation: heappop always returns a least element under the
  lexicographic order on (distance, city name) pairs that Python uses to
  compare the pushed tuples, and entries that compare equal are literally
  identical pairs here, so a list-with-pop-min is observationally the
  same priority queue.
* Python string comparison (code point by code point) is modelled by
  strLt below.
* The class-level path cache of ShortestPathFinder is threaded through
  every call explicitly as a value.
* while loops become fuel recursion; at every call site the fuel passed
  is large enough that exhaustion is unreachable (for the Dijkstra loop
  this is proved, see dloop_post below; for the planner loops each
  iteration removes at least one element from the list the fuel counts).
* A Python exception (ValueError, KeyError) is modelled by a Bool flag
  returned next to the state the object is left in.
-/

namespace DronePlan

/-! ## Association lists with Python dict semantics -/

/-- Lookup in an association list (first matching key). -/
def alookup {κ α : Type} [DecidableEq κ] : List (κ × α) → κ → Option α
  | [], _ => none
  | (k, v) :: rest, k' => if k = k' then some v else alookup rest k'

/-- Python dict write: replace the value of an existing key in place,
append a fresh key at the end. -/
def ainsert {κ α : Type} [DecidableEq κ] : List (κ × α) → κ → α → List (κ × α)
  | [], k, v => [(k, v)]
  | (k', v') :: rest, k, v =>
    if k' = k then (k', v) :: rest else (k', v') :: ainsert rest k v

/-- Python membership test for a dict key. -/
def containsKey {κ α : Type} [DecidableEq κ] (l : List (κ × α)) (k : κ) : Bool :=
  (alookup l k).isSome

theorem alookup_ainsert {κ α : Type} [DecidableEq κ] (l : List (κ × α)) (k k' : κ) (v : α) :
    alookup (ainsert l k v) k' = if k = k' then some v else alookup l k' := by
  induction l with
  | nil => simp [ainsert, alookup]
  | cons hd tl ih =>
    obtain ⟨k₀, v₀⟩ := hd
    by_cases h₀ : k₀ = k
    · subst h₀
      by_cases h₁ : k₀ = k'
      · subst h₁; simp [ainsert, alookup]
      · simp [ainsert, alookup, h₁]
    · by_cases h₁ : k₀ = k'
      · subst h₁
        simp [ainsert, alookup, h₀, Ne.symm h₀]
      · simp [ainsert, alookup, h₀, h₁, ih]

theorem alookup_ainsert_self {κ α : Type} [DecidableEq κ] (l : List (κ × α)) (k : κ) (v : α) :
    alookup (ainsert l k v) k = some v := by
  simp [alookup_ainsert]

theorem alookup_ainsert_ne {κ α : Type} [DecidableEq κ] (l : List (κ × α)) (k k' : κ) (v : α)
    (h : k ≠ k') : alookup (ainsert l k v) k' = alookup l k' := by
  simp [alookup_ainsert, h]

theorem alookup_mem {κ α : Type} [DecidableEq κ] {l : List (κ × α)} {k : κ} {v : α}
    (h : alookup l k = some v) : (k, v) ∈ l := by
  induction l with
  | nil => simp [alookup] at h
  | cons hd tl ih =>
    obtain ⟨k₀, v₀⟩ := hd
    by_cases h₀ : k₀ = k
    · subst h₀
      simp [alookup] at h
      simp [h]
    · simp [alookup, h₀] at h
      exact List.mem_cons_of_mem _ (ih h)

/-! ## Python string comparison

Python compares strings code point by code point; heapq uses this order on
the second tuple component when cumulative distances are equal. -/

/-- Code-point lexicographic strict order on strings, as Python compares
them inside heap entries. -/
def strLt (a b : String) : Bool :=
  go a.data b.data
where
  go : List Char → List Char → Bool
  | [], [] => false
  | [], _ :: _ => true
  | _ :: _, [] => false
  | c :: cs, d :: ds =>
    if c.toNat < d.toNat then true else if d.toNat < c.toNat then false else go cs ds

/-! ## Data model: routes, cities, packages, drones (models/) -/

/-- models/city.py Route: dataclass with destination, distance, is_active. -/
structure Route where
  destination : String
  distance : ℚ
  is_active : Bool
deriving DecidableEq, Repr

/-- models/city.py City: name, insertion-ordered connection dict, charging
flag.  The package-id bookkeeping set is never read by the planning core
and is omitted. -/
structure City where
  name : String
  connections : List (String × Route)
  has_charging_station : Bool
deriving DecidableEq, Repr

/-- models/package.py Package: validated value object. -/
structure Package where
  id : ℤ
  weight : ℚ
  value : ℚ
  destination : String
  priority : Option ℤ
  status : String
deriving DecidableEq, Repr

/-- models/drone.py Drone. -/
structure Drone where
  id : ℤ
  max_weight : ℚ
  max_distance : ℚ
  current_location : String
  current_weight : ℚ
  current_distance : ℚ
  battery_level : ℚ
  status : String
deriving DecidableEq, Repr

/-- Package.is_valid from models/package.py. -/
def Package.is_valid (p : Package) : Bool :=
  decide (0 < p.id) && decide (0 < p.weight) && decide (0 ≤ p.value)
    && decide (p.destination.trim ≠ "")

/-- The value-to-weight ratio property of models/package.py
(value / weight when the weight is positive, else 0).  The Python name of
this property is value_weight_ratio. -/
def Package.value_per_weight (p : Package) : ℚ :=
  if 0 < p.weight then p.value / p.weight else 0

/-- Drone.is_valid from models/drone.py. -/
def Drone.is_valid (d : Drone) : Bool :=
  decide (0 < d.id) && decide (0 < d.max_weight) && decide (0 < d.max_distance)
    && decide (0 ≤ d.battery_level) && decide (d.battery_level ≤ 100)

/-- The city dict of a DeliveryPlanner. -/
abbrev Cities := List (String × City)

/-- A shortest-path result: (path, distance); none is float("inf"). -/
abbrev PathResult := List String × Option ℚ

/-- The class-level _path_cache of ShortestPathFinder, keyed by the
ordered (start, end) pair. -/
abbrev Cache := List ((String × String) × PathResult)

/-! ## Dijkstra (algorithms/shortest_path.py) -/

/-- One heap entry: the (cumulative distance, city name) tuple pushed by
heapq.heappush. -/
abbrev Entry := ℚ × String

/-- The order in which Python compares heap entries: by distance, and on
equal distances by the city-name string. -/
def entryLe (a b : Entry) : Bool :=
  decide (a.1 < b.1) || (decide (a.1 = b.1) && (strLt a.2 b.2 || decide (a.2 = b.2)))

/-- heapq.heappop: remove and return a least entry under entryLe.  When
two distinct entries tie on distance the smaller city name wins, exactly
as the tuple comparison of Python decides it. -/
def popMin : List Entry → Option (Entry × List Entry)
  | [] => none
  | e :: rest =>
    match popMin rest with
    | none => some (e, [])
    | some (m, rest') => if entryLe e m then some (e, rest) else some (m, e :: rest')

/-- The mutable locals of the dijkstra function. -/
structure DState where
  dist : List (String × Option ℚ)
  prev : List (String × Option String)
  pq : List Entry
  visited : List String
deriving Repr

/-- distances[x], where a missing key reads as infinity. -/
def dlookup (l : List (String × Option ℚ)) (k : String) : Option ℚ :=
  match alookup l k with
  | some o => o
  | none => none

/-- new_distance < distances[neighbor], with none as infinity. -/
def qltOpt (q : ℚ) (o : Option ℚ) : Bool :=
  match o with
  | none => true
  | some q' => decide (q < q')

/-- The connection dict of a city, empty if the city is absent (Python
would raise KeyError on the absent case; it is unreachable from the
planner API because every pushed neighbour is itself a city key). -/
def connsOf (cities : Cities) (c : String) : List (String × Route) :=
  match alookup cities c with
  | some city => city.connections
  | none => []

/-- The neighbour loop of dijkstra: for each connection of the current
city, skip inactive routes and visited neighbours, and relax the rest,
pushing improved entries. -/
def relax (c : String) (d : ℚ) : List (String × Route) → DState → DState
  | [], s => s
  | (nb, r) :: rest, s =>
    if r.is_active = false then relax c d rest s
    else if s.visited.contains nb then relax c d rest s
    else
      let nd := d + r.distance
      if qltOpt nd (dlookup s.dist nb) then
        relax c d rest
          { s with
            dist := ainsert s.dist nb (some nd)
            prev := ainsert s.prev nb (some c)
            pq := s.pq ++ [(nd, nb)] }
      else relax c d rest s

/-- The while pq loop of dijkstra.  Fuel-recursive; dloop_post proves the
fuel passed by dijkstra is never exhausted with a nonempty queue. -/
def dloop (cities : Cities) (goal : String) : Nat → DState → DState
  | 0, s => s
  | fuel + 1, s =>
    match popMin s.pq with
    | none => s
    | some ((d, c), rest) =>
      if c = goal then { s with pq := rest }
      else if s.visited.contains c then dloop cities goal fuel { s with pq := rest }
      else
        dloop cities goal fuel
          (relax c d (connsOf cities c) { s with pq := rest, visited := s.visited ++ [c] })

/-- Reconstruction of the path by following the previous dict from the
goal back to the start; the Python loop appends and finally reverses.
The chain is fuelled; it is nonempty for every fuel. -/
def pathChain (prev : List (String × Option String)) : Nat → String → List String
  | 0, current => [current]
  | fuel + 1, current =>
    current ::
      (match alookup prev current with
       | some (some p) => pathChain prev fuel p
       | some none => []
       | none => [])

/-- Fuel for the while pq loop: every iteration pops one entry, and at
most 1 + (sum of all connection-list lengths) entries are ever pushed. -/
def dijkstraFuel (cities : Cities) : Nat :=
  1 + (cities.map fun kc => kc.2.connections.length).sum

/-- ShortestPathFinder.dijkstra: cache-first memoized Dijkstra.  Returns
the (path, distance) pair and the cache as the call leaves it. -/
def dijkstra (cache : Cache) (cities : Cities) (start goal : String) :
    PathResult × Cache :=
  match alookup cache (start, goal) with
  | some r => (r, cache)
  | none =>
    if containsKey cities start && containsKey cities goal then
      let s0 : DState :=
        { dist := ainsert (cities.map fun kc => (kc.1, (none : Option ℚ))) start (some 0)
          prev := cities.map fun kc => (kc.1, (none : Option String))
          pq := [(0, start)]
          visited := [] }
      let s1 := dloop cities goal (dijkstraFuel cities) s0
      match dlookup s1.dist goal with
      | none => (([], none), cache)
      | some dGoal =>
        let path := (pathChain s1.prev (cities.length + 1) goal).reverse
        ((path, some dGoal), ainsert cache (start, goal) (path, some dGoal))
    else (([], none), cache)

/-! ## Discovery-order variant of the frontier pop

Modelled from the spec: section 4.2 describes ties between equal-distance
frontier candidates as broken by discovery order (first enqueued wins, not
by id).  This second definition exists only to be compared with the
dijkstra embedding above; it differs from it solely in which entry a pop
returns when cumulative distances tie. -/

/-- Pop the earliest-enqueued entry among those of minimal cumulative
distance (first-in-first-out tie-breaking). -/
def popFifo : List Entry → Option (Entry × List Entry)
  | [] => none
  | e :: rest =>
    match popFifo rest with
    | none => some (e, [])
    | some (m, rest') =>
      if decide (e.1 ≤ m.1) then some (e, rest) else some (m, e :: rest')

/-- The while pq loop with discovery-order tie-breaking. -/
def dloopDiscovery (cities : Cities) (goal : String) : Nat → DState → DState
  | 0, s => s
  | fuel + 1, s =>
    match popFifo s.pq with
    | none => s
    | some ((d, c), rest) =>
      if c = goal then { s with pq := rest }
      else if s.visited.contains c then
        dloopDiscovery cities goal fuel { s with pq := rest }
      else
        dloopDiscovery cities goal fuel
          (relax c d (connsOf cities c) { s with pq := rest, visited := s.visited ++ [c] })

/-- The spec-side shortest path function: identical to dijkstra except
that frontier ties are broken by discovery order. -/
def dijkstraDiscovery (cache : Cache) (cities : Cities) (start goal : String) :
    PathResult × Cache :=
  match alookup cache (start, goal) with
  | some r => (r, cache)
  | none =>
    if containsKey cities start && containsKey cities goal then
      let s0 : DState :=
        { dist := ainsert (cities.map fun kc => (kc.1, (none : Option ℚ))) start (some 0)
          prev := cities.map fun kc => (kc.1, (none : Option String))
          pq := [(0, start)]
          visited := [] }
      let s1 := dloopDiscovery cities goal (dijkstraFuel cities) s0
      match dlookup s1.dist goal with
      | none => (([], none), cache)
      | some dGoal =>
        let path := (pathChain s1.prev (cities.length + 1) goal).reverse
        ((path, some dGoal), ainsert cache (start, goal) (path, some dGoal))
    else (([], none), cache)

/-! ## Package selection (algorithms/package_selector.py) -/

/-- One element of the package_info list built by select_packages: the
package, its round-trip distance and its selection score
value_weight_ratio / (total_distance + 1). -/
structure PackInfo where
  package : Package
  total_distance : ℚ
  score : ℚ
deriving DecidableEq, Repr

/-- The first loop of select_packages: keep each valid candidate whose
outbound and return legs are reachable and whose round trip fits the
range, recording its score.  The cache is threaded through both
shortest-path calls of every iteration. -/
def buildInfo (cities : Cities) (start_city : String) (drone : Drone) :
    List Package → Cache → List PackInfo × Cache
  | [], cache => ([], cache)
  | p :: rest, cache =>
    if p.is_valid = false then buildInfo cities start_city drone rest cache
    else
      match dijkstra cache cities start_city p.destination with
      | ((_, none), c₁) => buildInfo cities start_city drone rest c₁
      | ((_, some d), c₁) =>
        match dijkstra c₁ cities p.destination start_city with
        | ((_, none), c₂) => buildInfo cities start_city drone rest c₂
        | ((_, some rd), c₂) =>
          let td := d + rd
          if decide (drone.max_distance < td) then buildInfo cities start_city drone rest c₂
          else
            let (infos, c₃) := buildInfo cities start_city drone rest c₂
            (⟨p, td, p.value_per_weight / (td + 1)⟩ :: infos, c₃)

/-- The greedy loop of select_packages: accept an entry when its weight
fits the remaining capacity and the running round-trip-distance sum stays
within range. -/
def greedySelect (maxD : ℚ) : List PackInfo → List Package → ℚ → ℚ → List Package
  | [], sel, _, _ => sel
  | i :: rest, sel, remW, totD =>
    if decide (i.package.weight ≤ remW) then
      if decide (totD + i.total_distance ≤ maxD) then
        greedySelect maxD rest (sel ++ [i.package]) (remW - i.package.weight)
          (totD + i.total_distance)
      else greedySelect maxD rest sel remW totD
    else greedySelect maxD rest sel remW totD

/-- PackageSelector.select_packages.  The list sort with reverse=True is
a stable descending sort by score, modelled by mergeSort with the
greater-or-equal comparator (mergeSort is stable and keeps the original
relative order of equal scores, as the Python sort does). -/
def select_packages (cache : Cache) (packages : List Package) (drone : Drone)
    (cities : Cities) (start_city : String) : List Package × Cache :=
  if packages.isEmpty || drone.is_valid = false then ([], cache)
  else
    let (info, c₁) := buildInfo cities start_city drone packages cache
    let sorted := info.mergeSort fun a b => decide (b.score ≤ a.score)
    (greedySelect drone.max_distance sorted [] drone.max_weight 0, c₁)

/-- The grouping dict packages_by_destination of optimize_delivery_order,
in insertion order. -/
def groupByDest (packages : List Package) : List (String × List Package) :=
  packages.foldl
    (fun g p =>
      match alookup g p.destination with
      | none => g ++ [(p.destination, [p])]
      | some l => ainsert g p.destination (l ++ [p]))
    []

/-- One scan of the nearest-neighbour loop: over the remaining
destinations, in order, keep the first destination realizing the strictly
smallest shortest-path distance from the current city (unreachable
destinations never win because infinity is never strictly below the
running minimum). -/
def nearestScan (cities : Cities) (current : String) :
    List String → Cache → Option (String × ℚ) → Option (String × ℚ) × Cache
  | [], cache, best => (best, cache)
  | d :: rest, cache, best =>
    match dijkstra cache cities current d with
    | ((_, none), c') => nearestScan cities current rest c' best
    | ((_, some q), c') =>
      match best with
      | none => nearestScan cities current rest c' (some (d, q))
      | some (bd, bq) =>
        if decide (q < bq) then nearestScan cities current rest c' (some (d, q))
        else nearestScan cities current rest c' (some (bd, bq))

/-- The while remaining_destinations loop of optimize_delivery_order.
The remaining set is modelled as the list of distinct destinations in
first-occurrence order; Python iterates a set of strings here, an order
the spec itself calls implementation-defined.  Every concrete input used
in this file has a unique minimum at each step, so the scan order cannot
change which destination wins there. -/
def nnOrder (cities : Cities) : Nat → Cache → String → List String → List String →
    List String × Cache
  | 0, cache, _, _, acc => (acc, cache)
  | fuel + 1, cache, current, remaining, acc =>
    if remaining.isEmpty then (acc, cache)
    else
      match nearestScan cities current remaining cache none with
      | (none, c') => (acc, c')
      | (some (nd, _), c') =>
        nnOrder cities fuel c' nd (remaining.erase nd) (acc ++ [nd])

/-- PackageSelector.optimize_delivery_order. -/
def optimize_delivery_order (cache : Cache) (packages : List Package)
    (cities : Cities) (start_city : String) : List Package × Cache :=
  if packages.isEmpty then ([], cache)
  else
    let groups := groupByDest packages
    let dests := groups.map Prod.fst
    let (ordered, c₁) := nnOrder cities dests.length cache start_city dests []
    (ordered.foldl (fun acc d => acc ++ ((alookup groups d).getD [])) [], c₁)

/-! ## The planner (delivery_planner.py) -/

/-- One delivery plan dict emitted by plan_delivery. -/
structure DeliveryPlan where
  drone_id : ℤ
  packages : List Package
  route : List String
  total_distance : ℚ
  total_value : ℚ
deriving DecidableEq, Repr

/-- The route-building for loop of plan_delivery: visit each ordered
destination, breaking out of the loop (without discarding what was built)
when a leg is unreachable or would overrun the range.  Returns the route,
the accumulated true distance, the current city and the cache. -/
def buildRoute (cities : Cities) (maxD : ℚ) :
    List Package → Cache → String → List String → ℚ → List String × ℚ × String × Cache
  | [], cache, current, route, total => (route, total, current, cache)
  | p :: rest, cache, current, route, total =>
    match dijkstra cache cities current p.destination with
    | ((_, none), c') => (route, total, current, c')
    | ((path, some d), c') =>
      if decide (maxD < total + d) then (route, total, current, c')
      else
        buildRoute cities maxD rest c' p.destination (route ++ path.drop 1) (total + d)

/-- The while remaining_packages loop of plan_delivery for one drone.
Returns the emitted plans, the final remaining pool and the cache.  Fuel:
every iteration that recurses removed at least one package (the selection
was nonempty and is erased from the pool), so remaining.length + 1 is
never exhausted. -/
def planLoop (cities : Cities) (warehouse : String) (drone : Drone) :
    Nat → Cache → List Package → List DeliveryPlan × List Package × Cache
  | 0, cache, remaining => ([], remaining, cache)
  | fuel + 1, cache, remaining =>
    if remaining.isEmpty then ([], remaining, cache)
    else
      match select_packages cache remaining drone cities warehouse with
      | ([], c₁) => ([], remaining, c₁)
      | (selected, c₁) =>
        let (ordered, c₂) := optimize_delivery_order c₁ selected cities warehouse
        match buildRoute cities drone.max_distance ordered c₂ warehouse [warehouse] 0 with
        | (route, total, current, c₃) =>
          match dijkstra c₃ cities current warehouse with
          | ((_, none), c₄) => ([], remaining, c₄)
          | ((rpath, some rd), c₄) =>
            if decide (drone.max_distance < total + rd) then ([], remaining, c₄)
            else
              let plan : DeliveryPlan :=
                { drone_id := drone.id
                  packages := selected
                  route := route ++ rpath.drop 1
                  total_distance := total + rd
                  total_value := (selected.map Package.value).sum }
              let remaining' := selected.foldl (fun r p => r.erase p) remaining
              match planLoop cities warehouse drone fuel c₄ remaining' with
              | (plans, rem, c₅) => (plan :: plans, rem, c₅)

/-- The per-drone step of the plan_delivery fold: build all trips of one
drone from the current pool and append them. -/
def planFoldStep (cities : Cities) (warehouse : String)
    (st : List DeliveryPlan × List Package × Cache) (drone : Drone) :
    List DeliveryPlan × List Package × Cache :=
  match planLoop cities warehouse drone (st.2.1.length + 1) st.2.2 st.2.1 with
  | (plans, rem, c') => (st.1 ++ plans, rem, c')

/-- DeliveryPlanner.plan_delivery: for each drone in order, keep building
trips from the shared remaining pool.  The pool starts as a copy of the
callers list; only the copy is ever mutated. -/
def plan_delivery (cache : Cache) (cities : Cities) (warehouse : String)
    (packages : List Package) (drones : List Drone) : List DeliveryPlan × Cache :=
  let st := drones.foldl (planFoldStep cities warehouse) ([], packages, cache)
  (st.1, st.2.2)

/-- The caller-visible state after a plan_delivery call.  Line 55 of
delivery_planner.py copies the package list into remaining_packages and
every later mutation (remaining_packages.remove) hits only that copy; no
attribute of any Package or Drone is ever assigned anywhere in the call
graph of plan_delivery.  The embedding therefore returns the callers
package list and drone records as the call leaves them: unchanged. -/
def plan_delivery_effects (cache : Cache) (cities : Cities) (warehouse : String)
    (packages : List Package) (drones : List Drone) :
    (List DeliveryPlan × Cache) × List Package × List Drone :=
  (plan_delivery cache cities warehouse packages drones, packages, drones)

/-- The statistics record returned by get_delivery_statistics. -/
structure DeliveryStatistics where
  total_packages : ℕ
  total_value : ℚ
  total_distance : ℚ
  average_packages_per_trip : ℚ
  average_value_per_trip : ℚ
  average_distance_per_trip : ℚ
deriving DecidableEq, Repr

/-- DeliveryPlanner.get_delivery_statistics. -/
def get_delivery_statistics (plans : List DeliveryPlan) : DeliveryStatistics :=
  if plans.isEmpty then
    { total_packages := 0
      total_value := 0
      total_distance := 0
      average_packages_per_trip := 0
      average_value_per_trip := 0
      average_distance_per_trip := 0 }
  else
    let total_packages := (plans.map fun pl => pl.packages.length).sum
    let total_value := (plans.map DeliveryPlan.total_value).sum
    let total_distance := (plans.map DeliveryPlan.total_distance).sum
    let num_trips := plans.length
    { total_packages := total_packages
      total_value := total_value
      total_distance := total_distance
      average_packages_per_trip := (total_packages : ℚ) / (num_trips : ℚ)
      average_value_per_trip := total_value / (num_trips : ℚ)
      average_distance_per_trip := total_distance / (num_trips : ℚ) }

/-! ## Network mutation operations (delivery_planner.py and models/city.py) -/

/-- A planner world: the city dict of the DeliveryPlanner plus the
class-level path cache of ShortestPathFinder. -/
structure PlannerS where
  cities : Cities
  cache : Cache
deriving Repr

/-- The depot name fixed by DeliveryPlanner. -/
def warehouseName : String := "Warehouse"

/-- DeliveryPlanner constructor state: the warehouse city exists from the
start.  Creating a planner does not touch the class-level cache. -/
def initPlanner (cache : Cache) : PlannerS :=
  { cities := [(warehouseName, ⟨warehouseName, [], false⟩)], cache := cache }

/-- DeliveryPlanner.add_city: no-op when the name exists. -/
def add_city (cities : Cities) (name : String) (flag : Bool) : Cities :=
  if containsKey cities name then cities else cities ++ [(name, ⟨name, [], flag⟩)]

/-- City.add_connection: none models the ValueError raised on a
non-positive distance (raised before the dict write). -/
def City.add_connection (c : City) (destination : String) (distance : ℚ) : Option City :=
  if decide (distance ≤ 0) then none
  else some { c with connections := ainsert c.connections destination ⟨destination, distance, true⟩ }

/-- DeliveryPlanner.add_route.  The Bool is true when the call raised; the
state returned is the one the planner is left in either way.  The two
lookups cannot miss (add_city just ran) and their none branches model the
KeyError Python would raise there.  Note: add_route does not clear the
path cache. -/
def add_route (st : PlannerS) (a b : String) (d : ℚ) : PlannerS × Bool :=
  let cities₁ := add_city (add_city st.cities a false) b false
  match alookup cities₁ a with
  | none => ({ st with cities := cities₁ }, true)
  | some ca =>
    match City.add_connection ca b d with
    | none => ({ st with cities := cities₁ }, true)
    | some ca' =>
      let cities₂ := ainsert cities₁ a ca'
      match alookup cities₂ b with
      | none => ({ st with cities := cities₂ }, true)
      | some cb =>
        match City.add_connection cb a d with
        | none => ({ st with cities := cities₂ }, true)
        | some cb' => ({ st with cities := ainsert cities₂ b cb' }, false)

/-- City.deactivate_route: flip is_active of one stored direction when
present. -/
def City.deactivate_route (c : City) (destination : String) : City :=
  match alookup c.connections destination with
  | none => c
  | some r => { c with connections := ainsert c.connections destination { r with is_active := false } }

/-- City.activate_route. -/
def City.activate_route (c : City) (destination : String) : City :=
  match alookup c.connections destination with
  | none => c
  | some r => { c with connections := ainsert c.connections destination { r with is_active := true } }

/-- Replace the city stored under a key (the in-place object mutation of
Python), a no-op when the key is absent. -/
def updateCity (cities : Cities) (k : String) (f : City → City) : Cities :=
  match alookup cities k with
  | none => cities
  | some c => ainsert cities k (f c)

/-- DeliveryPlanner.deactivate_route: guarded on both endpoints existing;
clears the whole path cache. -/
def deactivate_route (st : PlannerS) (a b : String) : PlannerS :=
  if containsKey st.cities a && containsKey st.cities b then
    { cities :=
        updateCity (updateCity st.cities a fun c => City.deactivate_route c b) b
          fun c => City.deactivate_route c a
      cache := [] }
  else st

/-- DeliveryPlanner.activate_route. -/
def activate_route (st : PlannerS) (a b : String) : PlannerS :=
  if containsKey st.cities a && containsKey st.cities b then
    { cities :=
        updateCity (updateCity st.cities a fun c => City.activate_route c b) b
          fun c => City.activate_route c a
      cache := [] }
  else st

/-- The public network mutations of the planner. -/
inductive NetOp : Type
  | addCity (name : String) (flag : Bool)
  | addRoute (a b : String) (d : ℚ)
  | activateRoute (a b : String)
  | deactivateRoute (a b : String)

/-- Apply one network operation (keeping the state a raising add_route
leaves behind). -/
def applyOp (st : PlannerS) : NetOp → PlannerS
  | .addCity n flag => { st with cities := add_city st.cities n flag }
  | .addRoute a b d => (add_route st a b d).1
  | .activateRoute a b => activate_route st a b
  | .deactivateRoute a b => deactivate_route st a b

/-- The stored link from a to b, reduced to the pair of observables the
symmetry invariant speaks about: (distance, active flag). -/
def connAt (cities : Cities) (a b : String) : Option (ℚ × Bool) :=
  (alookup cities a).bind fun ca =>
    (alookup ca.connections b).map fun r => (r.distance, r.is_active)

/-- The symmetry invariant of the network: every stored link has its
mirror with the same distance and the same activity flag. -/
def SymmetricNet (cities : Cities) : Prop :=
  ∀ a b, connAt cities a b = connAt cities b a

/-! ## Reachability over active links, and the loop invariant -/

/-- One usable hop: an active link stored in the connection dict of u
pointing at v (membership, exactly what the neighbour loop iterates). -/
def activeAdj (cities : Cities) (u v : String) : Prop :=
  ∃ c r, alookup cities u = some c ∧ (v, r) ∈ c.connections ∧ r.is_active = true

/-- A path over active links from u to v. -/
def Reach (cities : Cities) (u v : String) : Prop :=
  Relation.ReflTransGen (activeAdj cities) u v

/-- The city keys are distinct (true of every dict; carried as a
hypothesis because the embedding of a dict is a list). -/
def KeysNodup (cities : Cities) : Prop :=
  (cities.map Prod.fst).Nodup

/-- distances[x] is finite. -/
def distFin (s : DState) (x : String) : Prop :=
  dlookup s.dist x ≠ none

/-- The invariant of the Dijkstra loop.  finStart: the start keeps a
finite distance.  finPq and finVisited: queued and visited cities have
finite distances.  frontier: every finite-distance city is visited or
still queued.  visitedEdges: the active out-links of a visited city lead
to finite-distance cities.  reachDist: finite distance implies
reachability from the start. -/
structure LInv (cities : Cities) (start : String) (s : DState) : Prop where
  finStart : distFin s start
  finPq : ∀ d x, (d, x) ∈ s.pq → distFin s x
  finVisited : ∀ x ∈ s.visited, distFin s x
  frontier : ∀ x, distFin s x → x ∈ s.visited ∨ ∃ d, (d, x) ∈ s.pq
  visitedEdges : ∀ u ∈ s.visited, ∀ nb r, (nb, r) ∈ connsOf cities u →
    r.is_active = true → distFin s nb
  reachDist : ∀ x, distFin s x → Reach cities start x

/-- Remaining relaxation work: the total connection count of unvisited
cities; together with the queue length it bounds the iterations left. -/
def remDeg (cities : Cities) (visited : List String) : Nat :=
  ((cities.filter fun kc => !(visited.contains kc.1)).map fun kc => kc.2.connections.length).sum

/-! ## Aggregates used by the claims about plan_delivery -/

/-- Sum of the weights of a package list. -/
def weightSum (ps : List Package) : ℚ :=
  (ps.map Package.weight).sum

/-- All packages recorded across a list of emitted plans. -/
def plansPackages (plans : List DeliveryPlan) : List Package :=
  (plans.map DeliveryPlan.packages).flatten

/-! ## Concrete scenarios used by individual claims -/

/-- Tie-break scenario: the network add_route S-B 1, S-A 1, B-T 1, A-T 1
builds (connection dicts in insertion order).  From S both B and A sit at
distance 1; B is discovered first, but the name A compares smaller. -/
def c5cities : Cities :=
  [("S", ⟨"S", [("B", ⟨"B", 1, true⟩), ("A", ⟨"A", 1, true⟩)], false⟩),
   ("B", ⟨"B", [("S", ⟨"S", 1, true⟩), ("T", ⟨"T", 1, true⟩)], false⟩),
   ("A", ⟨"A", [("S", ⟨"S", 1, true⟩), ("T", ⟨"T", 1, true⟩)], false⟩),
   ("T", ⟨"T", [("B", ⟨"B", 1, true⟩), ("A", ⟨"A", 1, true⟩)], false⟩)]

/-- A cache seeded for a pair of locations no network of the call knows:
the class-level cache outlives and ignores the cities mapping. -/
def c9cache : Cache := [(("X", "Y"), (["X", "Y"], some 5))]

/-- Stale-cache scenario for the missing invalidation in add_route:
build Warehouse-CityA at distance 10, query it (filling the cache), then
re-add the same link at distance 500. -/
def c2w1 : PlannerS := (add_route (initPlanner []) "Warehouse" "CityA" 10).1

/-- The first query, which caches (Warehouse, CityA) at distance 10. -/
def c2q1 : PathResult × Cache := dijkstra c2w1.cache c2w1.cities "Warehouse" "CityA"

/-- The planner after add_route replaced the link distance by 500;
add_route did not clear the cache. -/
def c2w3 : PlannerS := (add_route { c2w1 with cache := c2q1.2 } "Warehouse" "CityA" 500).1

/-- Packages and drones of the partial-trip scenario for plan_delivery. -/
def c1P1 : Package := ⟨1, 1, 100, "CityA", none, "pending"⟩

def c1P2 : Package := ⟨2, 1, 100, "CityB", none, "pending"⟩

def c1P3 : Package := ⟨3, 1, 100, "CityA", none, "pending"⟩

def c1P4 : Package := ⟨4, 1, 100, "CityB", none, "pending"⟩

def c1D1 : Drone := ⟨1, 10, 100, "Warehouse", 0, 0, 100, "idle"⟩

def c1D2 : Drone := ⟨2, 10, 100, "Warehouse", 0, 0, 100, "idle"⟩

/-- Network Warehouse-CityA 10, Warehouse-CityB 12. -/
def c1st2 : PlannerS :=
  (add_route ((add_route (initPlanner []) "Warehouse" "CityA" 10).1) "Warehouse" "CityB" 12).1

/-- First planning call: delivers c1P1, caching the Warehouse-CityA legs. -/
def c1r1 : List DeliveryPlan × Cache :=
  plan_delivery c1st2.cache c1st2.cities "Warehouse" [c1P1] [c1D1]

/-- Second planning call: delivers c1P2, caching the Warehouse-CityB legs. -/
def c1r2 : List DeliveryPlan × Cache :=
  plan_delivery c1r1.2 c1st2.cities "Warehouse" [c1P2] [c1D1]

/-- add_route then replaces Warehouse-CityB by distance 500 without
clearing the cache, so the cached CityB legs are stale (12 against a true
500). -/
def c1st3 : PlannerS := (add_route { c1st2 with cache := c1r2.2 } "Warehouse" "CityB" 500).1

/-- Third planning call: both packages are selected on the stale cached
distances; while building the route the CityA to CityB leg is computed
fresh (510), overruns the range 100, and the destination loop breaks -
yet a trip is still emitted. -/
def c1r3 : List DeliveryPlan × Cache :=
  plan_delivery c1st3.cache c1st3.cities "Warehouse" [c1P3, c1P4] [c1D2]

/-- The witness scenario of the trip-limit claim: one short route, one
package, one drone. -/
def c3cities : Cities := ((add_route (initPlanner []) "Warehouse" "CityA" 10).1).cities

def c3pkg : Package := ⟨1, 1, 5, "CityA", none, "pending"⟩

def c3drone : Drone := ⟨1, 10, 100, "Warehouse", 0, 0, 100, "idle"⟩

/-- The trip that the witness scenario of the trip-limit claim produces. -/
def c3trip : DeliveryPlan :=
  ⟨1, [c3pkg], ["Warehouse", "CityA", "Warehouse"], 20, 5⟩

/-- The witness scenario of the sentinel claim. -/
def c4cities : Cities := ((add_route (initPlanner []) "Warehouse" "CityA" 10).1).cities

/-- The witness scenario of the statistics claim. -/
def c7plan : DeliveryPlan :=
  ⟨1, [⟨1, 2, 30, "CityA", none, "pending"⟩], ["Warehouse", "CityA", "Warehouse"], 20, 30⟩

/-- The witness scenario of the frame claim. -/
def c8cities : Cities := ((add_route (initPlanner []) "Warehouse" "CityA" 10).1).cities

def c8pkg : Package := ⟨1, 1, 5, "CityA", none, "pending"⟩

def c8drone : Drone := ⟨1, 10, 100, "Warehouse", 0, 0, 100, "idle"⟩

/-- The trip that the witness scenario of the frame claim produces. -/
def c8trip : DeliveryPlan :=
  ⟨1, [c8pkg], ["Warehouse", "CityA", "Warehouse"], 20, 5⟩

/-! ## Helper lemmas: association lists -/

theorem containsKey_iff {κ α : Type} [DecidableEq κ] (l : List (κ × α)) (k : κ) :
    containsKey l k = true ↔ ∃ v, alookup l k = some v := by
  simp [containsKey, Option.isSome_iff_exists]

theorem containsKey_eq_false_iff {κ α : Type} [DecidableEq κ] (l : List (κ × α)) (k : κ) :
    containsKey l k = false ↔ alookup l k = none := by
  cases h : alookup l k <;> simp [containsKey, h]

theorem alookup_append {κ α : Type} [DecidableEq κ] (l₁ l₂ : List (κ × α)) (k : κ) :
    alookup (l₁ ++ l₂) k =
      match alookup l₁ k with
      | some v => some v
      | none => alookup l₂ k := by
  induction l₁ with
  | nil => simp [alookup]
  | cons hd tl ih =>
    obtain ⟨k₀, v₀⟩ := hd
    by_cases h : k₀ = k <;> simp [alookup, h, ih]

theorem containsKey_add_city_self (cs : Cities) (n : String) (f : Bool) :
    containsKey (add_city cs n f) n = true := by
  by_cases h : containsKey cs n = true
  · simp [add_city, h]
  · have h' : alookup cs n = none := (containsKey_eq_false_iff cs n).mp (by simpa using h)
    simp [add_city, h, containsKey, alookup_append, h', alookup]

theorem containsKey_add_city_mono (cs : Cities) (n m : String) (f : Bool)
    (h : containsKey cs m = true) : containsKey (add_city cs n f) m = true := by
  by_cases hn : containsKey cs n = true
  · simpa [add_city, hn] using h
  · obtain ⟨v, hv⟩ := (containsKey_iff cs m).mp h
    refine (containsKey_iff _ m).mpr ⟨v, ?_⟩
    simp [add_city, hn, alookup_append, hv]

theorem connAt_add_city (cs : Cities) (n : String) (f : Bool) (x y : String) :
    connAt (add_city cs n f) x y = connAt cs x y := by
  by_cases hn : containsKey cs n = true
  · simp [add_city, hn]
  · have h' : alookup cs n = none := (containsKey_eq_false_iff cs n).mp (by simpa using hn)
    unfold connAt
    cases hx : alookup cs x with
    | some cx => simp [add_city, hn, alookup_append, hx]
    | none =>
      by_cases hxn : x = n
      · subst hxn
        simp [add_city, hn, alookup_append, hx, alookup]
      · simp [add_city, hn, alookup_append, hx, alookup, Ne.symm hxn]

/-! ## Helper lemmas: the heap order -/

theorem strLt_go_irrefl (l : List Char) : strLt.go l l = false := by
  induction l with
  | nil => rfl
  | cons c cs ih => simp [strLt.go, ih]

theorem entryLe_refl (a : Entry) : entryLe a a = true := by
  simp [entryLe]

theorem char_eq_of_toNat_eq {a b : Char} (h : a.toNat = b.toNat) : a = b := by
  rw [← Char.ofNat_toNat a, ← Char.ofNat_toNat b, h]

theorem strLt_go_trans :
    ∀ l₁ l₂ l₃ : List Char, strLt.go l₁ l₂ = true → strLt.go l₂ l₃ = true →
      strLt.go l₁ l₃ = true := by
  intro l₁
  induction l₁ with
  | nil =>
    intro l₂ l₃ h₁₂ h₂₃
    cases l₂ with
    | nil => simp [strLt.go] at h₁₂
    | cons d ds =>
      cases l₃ with
      | nil => simp [strLt.go] at h₂₃
      | cons e es => simp [strLt.go]
  | cons c cs ih =>
    intro l₂ l₃ h₁₂ h₂₃
    cases l₂ with
    | nil => simp [strLt.go] at h₁₂
    | cons d ds =>
      cases l₃ with
      | nil => simp [strLt.go] at h₂₃
      | cons e es =>
        simp only [strLt.go] at h₁₂ h₂₃ ⊢
        rcases lt_trichotomy c.toNat d.toNat with hcd | hcd | hcd
        · rcases lt_trichotomy d.toNat e.toNat with hde | hde | hde
          · simp [lt_trans hcd hde]
          · rw [hde] at hcd
            simp [hcd]
          · simp [hde, asymm hde] at h₂₃
        · rcases lt_trichotomy d.toNat e.toNat with hde | hde | hde
          · simp [hcd ▸ hde]
          · have hce : c.toNat = e.toNat := hcd.trans hde
            simp [hcd, lt_irrefl] at h₁₂
            simp [hde, lt_irrefl] at h₂₃
            simp [hce, lt_irrefl]
            exact ih ds es h₁₂ h₂₃
          · simp [hde, asymm hde] at h₂₃
        · simp [hcd, asymm hcd] at h₁₂

theorem strLt_go_connex :
    ∀ l₁ l₂ : List Char, strLt.go l₁ l₂ = false → l₁ ≠ l₂ → strLt.go l₂ l₁ = true := by
  intro l₁
  induction l₁ with
  | nil =>
    intro l₂ h₁₂ hne
    cases l₂ with
    | nil => exact absurd rfl hne
    | cons d ds => simp [strLt.go] at h₁₂
  | cons c cs ih =>
    intro l₂ h₁₂ hne
    cases l₂ with
    | nil => simp [strLt.go]
    | cons d ds =>
      simp only [strLt.go] at h₁₂ ⊢
      rcases lt_trichotomy c.toNat d.toNat with hcd | hcd | hcd
      · simp [hcd] at h₁₂
      · have hch : c = d := char_eq_of_toNat_eq hcd
        subst hch
        simp [lt_irrefl] at h₁₂ ⊢
        refine ih ds h₁₂ ?_
        intro hds
        exact hne (by rw [hds])
      · simp [hcd, asymm hcd]

theorem string_eq_of_data_eq {a b : String} (h : a.data = b.data) : a = b :=
  congrArg String.mk h

theorem strLt_trans {a b c : String} (h₁ : strLt a b = true) (h₂ : strLt b c = true) :
    strLt a c = true :=
  strLt_go_trans a.data b.data c.data h₁ h₂

theorem strLt_connex {a b : String} (h : strLt a b = false) (hne : a ≠ b) :
    strLt b a = true := by
  refine strLt_go_connex a.data b.data h ?_
  intro hd
  exact hne (string_eq_of_data_eq hd)

theorem entryLe_trans {a b c : Entry} (h₁ : entryLe a b = true) (h₂ : entryLe b c = true) :
    entryLe a c = true := by
  simp only [entryLe, Bool.or_eq_true, Bool.and_eq_true, decide_eq_true_eq] at h₁ h₂ ⊢
  rcases h₁ with h₁ | ⟨h₁e, h₁s⟩
  · rcases h₂ with h₂ | ⟨h₂e, _⟩
    · exact Or.inl (lt_trans h₁ h₂)
    · exact Or.inl (h₂e ▸ h₁)
  · rcases h₂ with h₂ | ⟨h₂e, h₂s⟩
    · exact Or.inl (h₁e ▸ h₂)
    · refine Or.inr ⟨h₁e.trans h₂e, ?_⟩
      rcases h₁s with h₁s | h₁s
      · rcases h₂s with h₂s | h₂s
        · exact Or.inl (strLt_trans h₁s h₂s)
        · exact Or.inl (h₂s ▸ h₁s)
      · rcases h₂s with h₂s | h₂s
        · exact Or.inl (h₁s ▸ h₂s)
        · exact Or.inr (h₁s.trans h₂s)

theorem entryLe_total {a b : Entry} (h : entryLe a b = false) : entryLe b a = true := by
  rcases lt_trichotomy a.1 b.1 with hq | hq | hq
  · simp [entryLe, hq] at h
  · by_cases hs : strLt a.2 b.2 = true
    · simp [entryLe, hq, hs] at h
    · by_cases he2 : a.2 = b.2
      · simp [entryLe, hq, he2] at h
      · have hc := strLt_connex (by simpa using hs) he2
        simp [entryLe, hq, hc]
  · simp [entryLe, hq]

theorem popMin_none_iff (l : List Entry) : popMin l = none ↔ l = [] := by
  cases l with
  | nil => simp [popMin]
  | cons e rest =>
    simp only [popMin]
    cases h : popMin rest with
    | none => simp
    | some p =>
      obtain ⟨m, rest'⟩ := p
      by_cases he : entryLe e m = true <;> simp [he]

theorem popMin_spec {l : List Entry} {m : Entry} {r : List Entry}
    (h : popMin l = some (m, r)) :
    m ∈ l ∧ (∀ e ∈ l, e = m ∨ e ∈ r) ∧ r.length + 1 = l.length ∧
      (∀ e ∈ r, e ∈ l) ∧ (∀ e ∈ l, entryLe m e = true) := by
  induction l generalizing m r with
  | nil => simp [popMin] at h
  | cons e rest ih =>
    simp only [popMin] at h
    cases hr : popMin rest with
    | none =>
      have hrest : rest = [] := (popMin_none_iff rest).mp hr
      rw [hr] at h
      subst hrest
      simp only [Option.some.injEq, Prod.mk.injEq] at h
      obtain ⟨rfl, rfl⟩ := h
      refine ⟨by simp, by simp, by simp, by simp, ?_⟩
      intro x hx
      simp only [List.mem_singleton] at hx
      subst hx
      exact entryLe_refl _
    | some p =>
      obtain ⟨m₀, rest₀⟩ := p
      rw [hr] at h
      obtain ⟨hm₀, hcov₀, hlen₀, hsub₀, hmin₀⟩ := ih hr
      by_cases he : entryLe e m₀ = true
      · simp only [he, if_true, Option.some.injEq, Prod.mk.injEq] at h
        obtain ⟨rfl, rfl⟩ := h
        refine ⟨by simp, ?_, by simp, ?_, ?_⟩
        · intro x hx
          rcases List.mem_cons.mp hx with hx | hx
          · exact Or.inl hx
          · exact Or.inr (by simp [hx])
        · intro x hx
          exact List.mem_cons_of_mem _ hx
        · intro x hx
          rcases List.mem_cons.mp hx with hx | hx
          · subst hx; exact entryLe_refl _
          · exact entryLe_trans he (hmin₀ x hx)
      · simp only [he, if_false, Bool.false_eq_true, Option.some.injEq, Prod.mk.injEq] at h
        obtain ⟨rfl, rfl⟩ := h
        refine ⟨List.mem_cons_of_mem _ hm₀, ?_, by simpa using hlen₀, ?_, ?_⟩
        · intro x hx
          rcases List.mem_cons.mp hx with hx | hx
          · exact Or.inr (by simp [hx])
          · rcases hcov₀ x hx with hx' | hx'
            · exact Or.inl hx'
            · exact Or.inr (by simp [hx'])
        · intro x hx
          rcases List.mem_cons.mp hx with hx | hx
          · simp [hx]
          · exact List.mem_cons_of_mem _ (hsub₀ x hx)
        · intro x hx
          rcases List.mem_cons.mp hx with hx | hx
          · subst hx
            exact entryLe_total (by simpa using he)
          · exact hmin₀ x hx

/-! ## Network symmetry: how each mutation transforms connAt -/

theorem connAt_updateCity_deact (cs : Cities) (a b x y : String) :
    connAt (updateCity cs a fun c => City.deactivate_route c b) x y =
      if x = a ∧ y = b then (connAt cs a b).map (fun p => (p.1, false))
      else connAt cs x y := by
  cases ha : alookup cs a with
  | none =>
    by_cases hxy : x = a ∧ y = b
    · obtain ⟨rfl, rfl⟩ := hxy
      simp [updateCity, ha, connAt]
    · simp [updateCity, ha, hxy]
  | some ca =>
    by_cases hx : x = a
    · subst hx
      cases hcb : alookup ca.connections b with
      | none =>
        by_cases hy : y = b
        · subst hy
          simp [updateCity, ha, connAt, City.deactivate_route, hcb, alookup_ainsert_self]
        · simp [updateCity, ha, connAt, City.deactivate_route, hcb, alookup_ainsert_self, hy]
      | some r =>
        by_cases hy : y = b
        · subst hy
          simp [updateCity, ha, connAt, City.deactivate_route, hcb, alookup_ainsert_self,
            alookup_ainsert]
        · simp [updateCity, ha, connAt, City.deactivate_route, hcb, alookup_ainsert_self,
            alookup_ainsert, hy, Ne.symm hy]
    · simp [updateCity, ha, connAt, alookup_ainsert, Ne.symm hx, hx]

theorem connAt_updateCity_act (cs : Cities) (a b x y : String) :
    connAt (updateCity cs a fun c => City.activate_route c b) x y =
      if x = a ∧ y = b then (connAt cs a b).map (fun p => (p.1, true))
      else connAt cs x y := by
  cases ha : alookup cs a with
  | none =>
    by_cases hxy : x = a ∧ y = b
    · obtain ⟨rfl, rfl⟩ := hxy
      simp [updateCity, ha, connAt]
    · simp [updateCity, ha, hxy]
  | some ca =>
    by_cases hx : x = a
    · subst hx
      cases hcb : alookup ca.connections b with
      | none =>
        by_cases hy : y = b
        · subst hy
          simp [updateCity, ha, connAt, City.activate_route, hcb, alookup_ainsert_self]
        · simp [updateCity, ha, connAt, City.activate_route, hcb, alookup_ainsert_self, hy]
      | some r =>
        by_cases hy : y = b
        · subst hy
          simp [updateCity, ha, connAt, City.activate_route, hcb, alookup_ainsert_self,
            alookup_ainsert]
        · simp [updateCity, ha, connAt, City.activate_route, hcb, alookup_ainsert_self,
            alookup_ainsert, hy, Ne.symm hy]
    · simp [updateCity, ha, connAt, alookup_ainsert, Ne.symm hx, hx]

theorem map_setActive_idem (fl : Bool) (o : Option (ℚ × Bool)) :
    Option.map (fun p => (p.1, fl)) (Option.map (fun p => (p.1, fl)) o) =
      Option.map (fun p => (p.1, fl)) o := by
  cases o <;> rfl

theorem map_setActive_comp (fl : Bool) (o : Option (ℚ × Bool)) :
    Option.map ((fun p : ℚ × Bool => (p.1, fl)) ∘ fun p : ℚ × Bool => (p.1, fl)) o =
      Option.map (fun p : ℚ × Bool => (p.1, fl)) o := by
  cases o <;> rfl

theorem connAt_deactivate_closed (st : PlannerS) (a b x y : String) :
    connAt (deactivate_route st a b).cities x y =
      if containsKey st.cities a && containsKey st.cities b then
        (if (x = a ∧ y = b) ∨ (x = b ∧ y = a) then
          (connAt st.cities x y).map (fun p => (p.1, false))
        else connAt st.cities x y)
      else connAt st.cities x y := by
  by_cases hg : (containsKey st.cities a && containsKey st.cities b) = true
  · rw [deactivate_route, if_pos hg, if_pos hg]
    show connAt (updateCity (updateCity st.cities a fun c => City.deactivate_route c b) b
      fun c => City.deactivate_route c a) x y = _
    rw [connAt_updateCity_deact, connAt_updateCity_deact, connAt_updateCity_deact]
    by_cases h1 : x = a <;> by_cases h2 : y = b <;> by_cases h3 : x = b <;>
      by_cases h4 : y = a <;>
      simp_all [map_setActive_idem, map_setActive_comp]
  · rw [deactivate_route, if_neg hg, if_neg (by simpa using hg)]

theorem connAt_activate_closed (st : PlannerS) (a b x y : String) :
    connAt (activate_route st a b).cities x y =
      if containsKey st.cities a && containsKey st.cities b then
        (if (x = a ∧ y = b) ∨ (x = b ∧ y = a) then
          (connAt st.cities x y).map (fun p => (p.1, true))
        else connAt st.cities x y)
      else connAt st.cities x y := by
  by_cases hg : (containsKey st.cities a && containsKey st.cities b) = true
  · rw [activate_route, if_pos hg, if_pos hg]
    show connAt (updateCity (updateCity st.cities a fun c => City.activate_route c b) b
      fun c => City.activate_route c a) x y = _
    rw [connAt_updateCity_act, connAt_updateCity_act, connAt_updateCity_act]
    by_cases h1 : x = a <;> by_cases h2 : y = b <;> by_cases h3 : x = b <;>
      by_cases h4 : y = a <;>
      simp_all [map_setActive_idem, map_setActive_comp]
  · rw [activate_route, if_neg hg, if_neg (by simpa using hg)]

theorem add_connection_pos (c : City) (dest : String) (d : ℚ) (hd : 0 < d) :
    City.add_connection c dest d =
      some { c with connections := ainsert c.connections dest ⟨dest, d, true⟩ } := by
  simp [City.add_connection, not_le.mpr hd]

theorem add_route_fail (st : PlannerS) (a b : String) (d : ℚ) (hd : d ≤ 0) :
    add_route st a b d =
      ({ st with cities := add_city (add_city st.cities a false) b false }, true) := by
  have hca : containsKey (add_city (add_city st.cities a false) b false) a = true :=
    containsKey_add_city_mono _ _ _ _ (containsKey_add_city_self _ _ _)
  obtain ⟨ca, hca'⟩ := (containsKey_iff _ _).mp hca
  simp [add_route, hca', City.add_connection, hd]

theorem connAt_ainsert_self (cs : Cities) (k : String) (c : City) (y : String) :
    connAt (ainsert cs k c) k y =
      (alookup c.connections y).map fun r => (r.distance, r.is_active) := by
  simp [connAt, alookup_ainsert_self]

theorem connAt_ainsert_ne (cs : Cities) (k : String) (c : City) (x y : String)
    (h : k ≠ x) : connAt (ainsert cs k c) x y = connAt cs x y := by
  simp [connAt, alookup_ainsert_ne _ _ _ _ h]

theorem add_route_ok (st : PlannerS) (a b : String) (d : ℚ) (hd : 0 < d) :
    (add_route st a b d).2 = false ∧ (add_route st a b d).1.cache = st.cache ∧
      ∀ x y, connAt (add_route st a b d).1.cities x y =
        if (x = a ∧ y = b) ∨ (x = b ∧ y = a) then some (d, true)
        else connAt st.cities x y := by
  have hconn : ∀ x y,
      connAt (add_city (add_city st.cities a false) b false) x y = connAt st.cities x y := by
    intro x y
    rw [connAt_add_city, connAt_add_city]
  have hca : containsKey (add_city (add_city st.cities a false) b false) a = true :=
    containsKey_add_city_mono _ _ _ _ (containsKey_add_city_self _ _ _)
  obtain ⟨ca, hca'⟩ := (containsKey_iff _ _).mp hca
  by_cases hab : a = b
  · subst hab
    simp only [add_route, hca', add_connection_pos _ _ _ hd, alookup_ainsert_self]
    refine ⟨trivial, trivial, ?_⟩
    intro x y
    by_cases hx : x = a
    · subst hx
      rw [connAt_ainsert_self]
      by_cases hy : y = x
      · subst hy
        simp [alookup_ainsert_self]
      · rw [alookup_ainsert_ne _ _ _ _ (fun h : x = y => hy h.symm),
          alookup_ainsert_ne _ _ _ _ (fun h : x = y => hy h.symm),
          if_neg (by simp [hy]), ← hconn x y]
        simp [connAt, hca']
    · rw [connAt_ainsert_ne _ _ _ _ _ (fun h : a = x => hx h.symm),
        connAt_ainsert_ne _ _ _ _ _ (fun h : a = x => hx h.symm),
        if_neg (by simp [hx]), hconn x y]
  · have hcb : containsKey (add_city (add_city st.cities a false) b false) b = true :=
      containsKey_add_city_self _ _ _
    obtain ⟨cb, hcb'⟩ := (containsKey_iff _ _).mp hcb
    have hcb₂ : ∀ c : City,
        alookup (ainsert (add_city (add_city st.cities a false) b false) a c) b = some cb := by
      intro c
      rw [alookup_ainsert_ne _ _ _ _ hab, hcb']
    simp only [add_route, hca', add_connection_pos _ _ _ hd, hcb₂]
    refine ⟨trivial, trivial, ?_⟩
    intro x y
    by_cases hxb : x = b
    · subst hxb
      rw [connAt_ainsert_self]
      by_cases hy : y = a
      · subst hy
        simp [alookup_ainsert_self]
      · have hcond : ¬((x = a ∧ y = x) ∨ (x = x ∧ y = a)) := by
          rintro (⟨h₁, -⟩ | ⟨-, h₂⟩)
          · exact hab h₁.symm
          · exact hy h₂
        rw [alookup_ainsert_ne _ _ _ _ (fun h : a = y => hy h.symm), if_neg hcond,
          ← hconn x y]
        simp [connAt, hcb']
    · by_cases hxa : x = a
      · subst hxa
        rw [connAt_ainsert_ne _ _ _ _ _ (fun h : b = x => hxb h.symm),
          connAt_ainsert_self]
        by_cases hy : y = b
        · subst hy
          simp [alookup_ainsert_self]
        · have hcond : ¬((x = x ∧ y = b) ∨ (x = b ∧ y = x)) := by
            rintro (⟨-, h₂⟩ | ⟨h₁, -⟩)
            · exact hy h₂
            · exact hxb h₁
          rw [alookup_ainsert_ne _ _ _ _ (fun h : b = y => hy h.symm), if_neg hcond,
            ← hconn x y]
          simp [connAt, hca']
      · have hcond : ¬((x = a ∧ y = b) ∨ (x = b ∧ y = a)) := by
          rintro (⟨h₁, -⟩ | ⟨h₁, -⟩)
          · exact hxa h₁
          · exact hxb h₁
        rw [connAt_ainsert_ne _ _ _ _ _ (fun h : b = x => hxb h.symm),
          connAt_ainsert_ne _ _ _ _ _ (fun h : a = x => hxa h.symm), if_neg hcond,
          hconn x y]

theorem symmetric_applyOp {st : PlannerS} (h : SymmetricNet st.cities) (op : NetOp) :
    SymmetricNet (applyOp st op).cities := by
  cases op with
  | addCity n flag =>
    intro x y
    show connAt (add_city st.cities n flag) x y = connAt (add_city st.cities n flag) y x
    rw [connAt_add_city, connAt_add_city]
    exact h x y
  | addRoute a b d =>
    by_cases hd : 0 < d
    · obtain ⟨-, -, hchar⟩ := add_route_ok st a b d hd
      intro x y
      show connAt (add_route st a b d).1.cities x y = connAt (add_route st a b d).1.cities y x
      rw [hchar x y, hchar y x]
      by_cases hc : (x = a ∧ y = b) ∨ (x = b ∧ y = a)
      · have hc' : (y = a ∧ x = b) ∨ (y = b ∧ x = a) := by tauto
        rw [if_pos hc, if_pos (by tauto)]
      · rw [if_neg hc, if_neg (by tauto)]
        exact h x y
    · show SymmetricNet (add_route st a b d).1.cities
      rw [add_route_fail st a b d (not_lt.mp hd)]
      intro x y
      show connAt (add_city (add_city st.cities a false) b false) x y = _
      rw [connAt_add_city, connAt_add_city, connAt_add_city, connAt_add_city]
      exact h x y
  | activateRoute a b =>
    intro x y
    rw [show applyOp st (NetOp.activateRoute a b) = activate_route st a b from rfl,
      connAt_activate_closed, connAt_activate_closed]
    by_cases hg : (containsKey st.cities a && containsKey st.cities b) = true
    · rw [if_pos hg, if_pos hg]
      by_cases hc : (x = a ∧ y = b) ∨ (x = b ∧ y = a)
      · rw [if_pos hc, if_pos (by tauto), h x y]
      · rw [if_neg hc, if_neg (by tauto)]
        exact h x y
    · rw [if_neg hg, if_neg hg]
      exact h x y
  | deactivateRoute a b =>
    intro x y
    rw [show applyOp st (NetOp.deactivateRoute a b) = deactivate_route st a b from rfl,
      connAt_deactivate_closed, connAt_deactivate_closed]
    by_cases hg : (containsKey st.cities a && containsKey st.cities b) = true
    · rw [if_pos hg, if_pos hg]
      by_cases hc : (x = a ∧ y = b) ∨ (x = b ∧ y = a)
      · rw [if_pos hc, if_pos (by tauto), h x y]
      · rw [if_neg hc, if_neg (by tauto)]
        exact h x y
    · rw [if_neg hg, if_neg hg]
      exact h x y

theorem symmetric_foldl {st : PlannerS} (h : SymmetricNet st.cities) :
    ∀ ops : List NetOp, SymmetricNet ((ops.foldl applyOp st).cities) := by
  intro ops
  induction ops generalizing st with
  | nil => simpa using h
  | cons op rest ih => exact ih (symmetric_applyOp h op)

theorem symmetric_init (cache : Cache) : SymmetricNet (initPlanner cache).cities := by
  intro x y
  simp only [initPlanner, connAt, alookup]
  by_cases hx : warehouseName = x
  · subst hx
    by_cases hy : warehouseName = y
    · subst hy
      simp [alookup]
    · simp [hy, alookup]
  · by_cases hy : warehouseName = y
    · subst hy
      simp [hx, alookup]
    · simp [hx, hy]

/-! ## Claim theorems (first group) -/

/-- C6: for every sequence of the planner network operations (add_city,
add_route, activate_route, deactivate_route) applied to a fresh planner,
the graph stays symmetric: whenever a link a to b is stored, the link b
to a is stored with the same distance and the same active flag. -/
theorem claim_C6_network_symmetry (cache : Cache) (ops : List NetOp) :
    SymmetricNet ((ops.foldl applyOp (initPlanner cache)).cities) :=
  symmetric_foldl (symmetric_init cache) ops

/-- C9: dijkstra consults the memoization cache before validating its
inputs: whenever the ordered (start, goal) pair is cached, the cached
result is returned unchanged and the cities mapping is never inspected -
the statement holds for every cities value, including ones that do not
contain start or goal. -/
theorem claim_C9_cache_checked_first (cache : Cache) (cities : Cities)
    (start goal : String) (v : PathResult)
    (h : alookup cache (start, goal) = some v) :
    dijkstra cache cities start goal = (v, cache) := by
  simp [dijkstra, h]

/-- Witness for C9: a cached finite path is returned for a query whose
start is absent from the (here: empty) cities mapping of the call. -/
theorem claim_C9_cache_checked_first_witness :
    dijkstra c9cache [] "X" "Y" = ((["X", "Y"], some 5), c9cache) ∧
      containsKey ([] : Cities) "X" = false :=
  ⟨claim_C9_cache_checked_first c9cache [] "X" "Y" (["X", "Y"], some 5)
      (by with_unfolding_all decide),
    by decide⟩

/-- C10: add_route with a non-positive distance raises the validation
error, but not atomically: both endpoint cities exist afterwards (created
when previously absent), while no link is stored in either direction (all
stored links, and the cache, are exactly as before the call). -/
theorem claim_C10_add_route_nonatomic (st : PlannerS) (a b : String) (d : ℚ)
    (hd : d ≤ 0) :
    (add_route st a b d).2 = true ∧
      containsKey (add_route st a b d).1.cities a = true ∧
      containsKey (add_route st a b d).1.cities b = true ∧
      (∀ x y, connAt (add_route st a b d).1.cities x y = connAt st.cities x y) ∧
      (add_route st a b d).1.cache = st.cache := by
  rw [add_route_fail st a b d hd]
  refine ⟨rfl, ?_, ?_, ?_, rfl⟩
  · exact containsKey_add_city_mono _ _ _ _ (containsKey_add_city_self _ _ _)
  · exact containsKey_add_city_self _ _ _
  · intro x y
    show connAt (add_city (add_city st.cities a false) b false) x y = _
    rw [connAt_add_city, connAt_add_city]

/-- Witness for C10 at distance 0 on a fresh planner. -/
theorem claim_C10_add_route_nonatomic_witness :
    (add_route (initPlanner []) "CityA" "CityB" 0).2 = true ∧
      containsKey (add_route (initPlanner []) "CityA" "CityB" 0).1.cities "CityA" = true ∧
      containsKey (add_route (initPlanner []) "CityA" "CityB" 0).1.cities "CityB" = true ∧
      (∀ x y, connAt (add_route (initPlanner []) "CityA" "CityB" 0).1.cities x y =
        connAt (initPlanner []).cities x y) ∧
      (add_route (initPlanner []) "CityA" "CityB" 0).1.cache = (initPlanner []).cache :=
  claim_C10_add_route_nonatomic (initPlanner []) "CityA" "CityB" 0 (by norm_num)

/-- C7: statistics of the empty trip list are all zero (no division is
reached, the empty case returns the constant record); otherwise the
totals are the sums over the trips and each average is the corresponding
sum divided by the number of trips. -/
theorem claim_C7_statistics :
    get_delivery_statistics [] =
      { total_packages := 0, total_value := 0, total_distance := 0,
        average_packages_per_trip := 0, average_value_per_trip := 0,
        average_distance_per_trip := 0 } ∧
    ∀ plans : List DeliveryPlan, plans ≠ [] →
      get_delivery_statistics plans =
        { total_packages := (plans.map fun pl => pl.packages.length).sum
          total_value := (plans.map DeliveryPlan.total_value).sum
          total_distance := (plans.map DeliveryPlan.total_distance).sum
          average_packages_per_trip :=
            (((plans.map fun pl => pl.packages.length).sum : ℕ) : ℚ) / (plans.length : ℚ)
          average_value_per_trip :=
            (plans.map DeliveryPlan.total_value).sum / (plans.length : ℚ)
          average_distance_per_trip :=
            (plans.map DeliveryPlan.total_distance).sum / (plans.length : ℚ) } := by
  refine ⟨rfl, ?_⟩
  intro plans h
  simp only [get_delivery_statistics]
  rw [if_neg (by simpa using h)]

/-- Witness for C7 on a one-trip list. -/
theorem claim_C7_statistics_witness :
    get_delivery_statistics [c7plan] =
      { total_packages := 1, total_value := 30, total_distance := 20,
        average_packages_per_trip := 1, average_value_per_trip := 30,
        average_distance_per_trip := 20 } := by
  rw [claim_C7_statistics.2 [c7plan] (by simp)]
  with_unfolding_all decide

set_option maxRecDepth 10000

/-- C2 (failing input): add_route does not clear the path cache.  After
the link Warehouse-CityA (distance 10) is cached and add_route replaces
it by distance 500, the next dijkstra call still returns the
pre-mutation result, while a fresh computation on the same network
returns 500. -/
theorem claim_C2_add_route_stale_cache :
    alookup c2w3.cache ("Warehouse", "CityA") = some (["Warehouse", "CityA"], some 10) ∧
      (dijkstra c2w3.cache c2w3.cities "Warehouse" "CityA").1 =
        (["Warehouse", "CityA"], some 10) ∧
      (dijkstra [] c2w3.cities "Warehouse" "CityA").1 =
        (["Warehouse", "CityA"], some 500) := by
  with_unfolding_all decide

/-- C1 (failing input): a trip is emitted although route building broke
out of the destination loop.  After the cache is polluted through
add_route (no invalidation), the third plan_delivery call selects both
packages, fails the CityA to CityB leg (fresh distance 510 over the range
100), breaks, and still emits the trip containing c1P4 - whose
destination CityB the recorded route never visits - removing both
packages from the pool. -/
theorem claim_C1_partial_trip_emitted :
    c1r3.1 = [{ drone_id := 2, packages := [c1P3, c1P4],
                route := ["Warehouse", "CityA", "Warehouse"],
                total_distance := 20, total_value := 200 }] ∧
      c1P4.destination = "CityB" ∧
      ¬ "CityB" ∈ (["Warehouse", "CityA", "Warehouse"] : List String) := by
  with_unfolding_all decide

/-- C5 (counterexample): on c5cities, discovery-order tie-breaking and
id-order tie-breaking return different paths, and dijkstra returns the
id-order one, not the discovery-order one the claim asserts. -/
theorem claim_C5_counterexample :
    (dijkstra [] c5cities "S" "T").1 = (["S", "A", "T"], some 2) ∧
      (dijkstraDiscovery [] c5cities "S" "T").1 = (["S", "B", "T"], some 2) ∧
      (["S", "A", "T"] : List String) ≠ ["S", "B", "T"] := by
  with_unfolding_all decide

/-- C5 (amended): frontier ties are broken by the lexicographic order on
the (distance, location id) pairs - every pop returns an entry least
under that order, so among equal-distance candidates the smallest id is
popped first - and on the concrete input where the two rules differ the
returned path is the id-order one. -/
theorem claim_C5_tiebreak_by_id :
    (∀ (pq : List Entry) (m : Entry) (rest : List Entry), popMin pq = some (m, rest) →
      ∀ e ∈ pq, entryLe m e = true) ∧
    (dijkstra [] c5cities "S" "T").1 = (["S", "A", "T"], some 2) := by
  constructor
  · intro pq m rest h e he
    exact (popMin_spec h).2.2.2.2 e he
  · with_unfolding_all decide

/-- Witness for C5: the pop of the two-entry frontier with equal
distances returns the entry with the smaller id, which is least under
the pair order. -/
theorem claim_C5_tiebreak_by_id_witness :
    entryLe ((1 : ℚ), "A") ((1 : ℚ), "B") = true ∧
      (dijkstra [] c5cities "S" "T").1 = (["S", "A", "T"], some 2) :=
  ⟨claim_C5_tiebreak_by_id.1 [((1 : ℚ), "B"), ((1 : ℚ), "A")] ((1 : ℚ), "A")
      [((1 : ℚ), "B")] (by with_unfolding_all decide) ((1 : ℚ), "B")
      (by with_unfolding_all decide),
    claim_C5_tiebreak_by_id.2⟩

/-! ## Helper lemmas for the planner claims (C3, C8) -/

theorem weightSum_append (l₁ l₂ : List Package) :
    weightSum (l₁ ++ l₂) = weightSum l₁ + weightSum l₂ := by
  simp [weightSum]

theorem greedySelect_weight (maxD : ℚ) :
    ∀ (infos : List PackInfo) (sel : List Package) (remW totD : ℚ), 0 ≤ remW →
      weightSum (greedySelect maxD infos sel remW totD) ≤ weightSum sel + remW := by
  intro infos
  induction infos with
  | nil =>
    intro sel remW totD h
    simpa [greedySelect] using by linarith
  | cons i rest ih =>
    intro sel remW totD h
    simp only [greedySelect]
    by_cases h₁ : i.package.weight ≤ remW
    · rw [if_pos (by simpa using h₁)]
      by_cases h₂ : totD + i.total_distance ≤ maxD
      · rw [if_pos (by simpa using h₂)]
        have := ih (sel ++ [i.package]) (remW - i.package.weight)
          (totD + i.total_distance) (by linarith)
        rw [weightSum_append] at this
        have hone : weightSum [i.package] = i.package.weight := by
          simp [weightSum]
        rw [hone] at this
        linarith
      · rw [if_neg (by simpa using h₂)]
        exact ih sel remW totD h
    · rw [if_neg (by simpa using h₁)]
      exact ih sel remW totD h

theorem select_packages_eq_nil_of_invalid (cache : Cache) (pkgs : List Package)
    (drone : Drone) (cities : Cities) (s : String) (h : drone.is_valid = false) :
    (select_packages cache pkgs drone cities s).1 = [] := by
  simp [select_packages, h]

theorem select_packages_weight (cache : Cache) (pkgs : List Package) (drone : Drone)
    (cities : Cities) (s : String) (hv : drone.is_valid = true) :
    weightSum (select_packages cache pkgs drone cities s).1 ≤ drone.max_weight := by
  have hmax : (0 : ℚ) ≤ drone.max_weight := by
    simp only [Drone.is_valid, Bool.and_eq_true, decide_eq_true_eq] at hv
    obtain ⟨⟨⟨⟨-, h₂⟩, -⟩, -⟩, -⟩ := hv
    linarith
  by_cases hp : pkgs.isEmpty
  · simp [select_packages, hp, weightSum, hmax]
  · rcases hb : buildInfo cities s drone pkgs cache with ⟨info, c₁⟩
    have : (select_packages cache pkgs drone cities s).1 =
        greedySelect drone.max_distance
          (info.mergeSort fun a b => decide (b.score ≤ a.score)) [] drone.max_weight 0 := by
      simp [select_packages, hp, hv, hb]
    rw [this]
    have := greedySelect_weight drone.max_distance
      (info.mergeSort fun a b => decide (b.score ≤ a.score)) [] drone.max_weight 0 hmax
    simpa [weightSum] using this

theorem greedySelect_sublist (maxD : ℚ) :
    ∀ (infos : List PackInfo) (sel : List Package) (remW totD : ℚ),
      ∃ t, greedySelect maxD infos sel remW totD = sel ++ t ∧
        t.Sublist (infos.map PackInfo.package) := by
  intro infos
  induction infos with
  | nil =>
    intro sel remW totD
    exact ⟨[], by simp [greedySelect], by simp⟩
  | cons i rest ih =>
    intro sel remW totD
    simp only [greedySelect]
    by_cases h₁ : i.package.weight ≤ remW
    · rw [if_pos (by simpa using h₁)]
      by_cases h₂ : totD + i.total_distance ≤ maxD
      · rw [if_pos (by simpa using h₂)]
        obtain ⟨t, ht, hsub⟩ := ih (sel ++ [i.package]) (remW - i.package.weight)
          (totD + i.total_distance)
        exact ⟨i.package :: t, by simpa using ht, by simpa using hsub.cons₂ i.package⟩
      · rw [if_neg (by simpa using h₂)]
        obtain ⟨t, ht, hsub⟩ := ih sel remW totD
        exact ⟨t, ht, hsub.cons i.package⟩
    · rw [if_neg (by simpa using h₁)]
      obtain ⟨t, ht, hsub⟩ := ih sel remW totD
      exact ⟨t, ht, hsub.cons i.package⟩

theorem buildInfo_sublist (cities : Cities) (s : String) (drone : Drone) :
    ∀ (pkgs : List Package) (cache : Cache),
      ((buildInfo cities s drone pkgs cache).1.map PackInfo.package).Sublist pkgs := by
  intro pkgs
  induction pkgs with
  | nil =>
    intro cache
    simp [buildInfo]
  | cons p rest ih =>
    intro cache
    simp only [buildInfo]
    by_cases hval : p.is_valid = false
    · rw [if_pos hval]
      exact (ih cache).cons p
    · rw [if_neg hval]
      split
      · exact (ih _).cons p
      · split
        · exact (ih _).cons p
        · split
          · exact (ih _).cons p
          · rename_i d c₁ heq₁ path₂ rd c₂ heq₂ hle
            rcases hb : buildInfo cities s drone rest c₂ with ⟨infos, c₃⟩
            have hres := ih c₂
            rw [hb] at hres
            simp only [hb]
            simpa using hres.cons₂ p

theorem select_packages_count (cache : Cache) (pkgs : List Package) (drone : Drone)
    (cities : Cities) (s : String) (x : Package) :
    (select_packages cache pkgs drone cities s).1.count x ≤ pkgs.count x := by
  by_cases hg : pkgs = [] ∨ drone.is_valid = false
  · simp [select_packages, hg]
  · rcases hb : buildInfo cities s drone pkgs cache with ⟨info, c₁⟩
    have hres : (select_packages cache pkgs drone cities s).1 =
        greedySelect drone.max_distance
          (info.mergeSort fun a b => decide (b.score ≤ a.score)) [] drone.max_weight 0 := by
      simp [select_packages, hg, hb]
    obtain ⟨t, ht, hsub⟩ := greedySelect_sublist drone.max_distance
      (info.mergeSort fun a b => decide (b.score ≤ a.score)) [] drone.max_weight 0
    rw [hres, ht]
    simp only [List.nil_append]
    calc t.count x
        ≤ ((info.mergeSort fun a b => decide (b.score ≤ a.score)).map
            PackInfo.package).count x := hsub.count_le x
      _ = (info.map PackInfo.package).count x :=
          ((List.mergeSort_perm info _).map PackInfo.package).count_eq x
      _ ≤ pkgs.count x := by
          have := buildInfo_sublist cities s drone pkgs cache
          rw [hb] at this
          exact this.count_le x

theorem count_foldl_erase (x : Package) :
    ∀ (sel rem : List Package),
      (sel.foldl (fun r p => r.erase p) rem).count x = rem.count x - sel.count x := by
  intro sel
  induction sel with
  | nil => intro rem; simp
  | cons p sel' ih =>
    intro rem
    simp only [List.foldl_cons]
    rw [ih (rem.erase p)]
    rw [List.count_erase]
    by_cases hpx : p = x
    · subst hpx
      simp [List.count_cons]
      omega
    · simp [List.count_cons, hpx, Ne.symm hpx]

theorem plansPackages_nil : plansPackages [] = [] := rfl

theorem plansPackages_cons (pl : DeliveryPlan) (rest : List DeliveryPlan) :
    plansPackages (pl :: rest) = pl.packages ++ plansPackages rest := by
  simp [plansPackages]

theorem plansPackages_append (l₁ l₂ : List DeliveryPlan) :
    plansPackages (l₁ ++ l₂) = plansPackages l₁ ++ plansPackages l₂ := by
  simp [plansPackages]

theorem planLoop_spec (cities : Cities) (warehouse : String) (drone : Drone) :
    ∀ (fuel : Nat) (cache : Cache) (remaining : List Package),
      (∀ pl ∈ (planLoop cities warehouse drone fuel cache remaining).1,
          pl.drone_id = drone.id ∧ weightSum pl.packages ≤ drone.max_weight ∧
            pl.total_distance ≤ drone.max_distance) ∧
      (∀ x : Package,
          (plansPackages (planLoop cities warehouse drone fuel cache remaining).1).count x +
            ((planLoop cities warehouse drone fuel cache remaining).2.1).count x ≤
          remaining.count x) := by
  intro fuel
  induction fuel with
  | zero =>
    intro cache remaining
    constructor
    · intro pl h
      simp [planLoop] at h
    · intro x
      simp [planLoop, plansPackages]
  | succ fuel ih =>
    intro cache remaining
    by_cases hemp : remaining.isEmpty
    · constructor
      · intro pl h
        simp [planLoop, hemp] at h
      · intro x
        simp [planLoop, hemp, plansPackages]
    · rcases hsel : select_packages cache remaining drone cities warehouse with ⟨selected, c₁⟩
      cases selected with
      | nil =>
        constructor
        · intro pl h
          simp [planLoop, hemp, hsel] at h
        · intro x
          simp [planLoop, hemp, hsel, plansPackages]
      | cons p ps =>
        have hv : drone.is_valid = true := by
          by_contra hv
          have := select_packages_eq_nil_of_invalid cache remaining drone cities warehouse
            (by simpa using hv)
          rw [hsel] at this
          simp at this
        have hw : weightSum (p :: ps) ≤ drone.max_weight := by
          have := select_packages_weight cache remaining drone cities warehouse hv
          rwa [hsel] at this
        have hcnt : ∀ x : Package, (p :: ps).count x ≤ remaining.count x := by
          intro x
          have := select_packages_count cache remaining drone cities warehouse x
          rwa [hsel] at this
        rcases hopt : optimize_delivery_order c₁ (p :: ps) cities warehouse with ⟨ordered, c₂⟩
        rcases hbr : buildRoute cities drone.max_distance ordered c₂ warehouse [warehouse] 0
          with ⟨route, total, current, c₃⟩
        rcases hdj : dijkstra c₃ cities current warehouse with ⟨⟨rpath, rdist⟩, c₄⟩
        cases rdist with
        | none =>
          constructor
          · intro pl h
            simp [planLoop, hemp, hsel, hopt, hbr, hdj] at h
          · intro x
            simp [planLoop, hemp, hsel, hopt, hbr, hdj, plansPackages]
        | some rd =>
          by_cases hov : drone.max_distance < total + rd
          · constructor
            · intro pl h
              simp [planLoop, hemp, hsel, hopt, hbr, hdj, hov] at h
            · intro x
              simp [planLoop, hemp, hsel, hopt, hbr, hdj, hov, plansPackages]
          · rcases hrec : planLoop cities warehouse drone fuel c₄
                (ps.foldl (fun r q => r.erase q) (remaining.erase p)) with ⟨plans', rem'', c₅⟩
            have hred : planLoop cities warehouse drone (fuel + 1) cache remaining =
                ({ drone_id := drone.id
                   packages := p :: ps
                   route := route ++ rpath.drop 1
                   total_distance := total + rd
                   total_value := ((p :: ps).map Package.value).sum } :: plans', rem'', c₅) := by
              simp [planLoop, hemp, hsel, hopt, hbr, hdj, hov, hrec]
            obtain ⟨ih1, ih2⟩ := ih c₄ (ps.foldl (fun r q => r.erase q) (remaining.erase p))
            rw [hrec] at ih1 ih2
            constructor
            · intro pl h
              rw [hred] at h
              rcases List.mem_cons.mp h with h | h
              · subst h
                exact ⟨rfl, hw, not_lt.mp hov⟩
              · exact ih1 pl h
            · intro x
              rw [hred]
              have h2 := ih2 x
              have h3 := count_foldl_erase x (p :: ps) remaining
              simp only [List.foldl_cons] at h3
              rw [h3] at h2
              have h4 := hcnt x
              dsimp only at h2 ⊢
              rw [plansPackages_cons, List.count_append]
              dsimp only
              omega

theorem plan_fold_spec (cities : Cities) (warehouse : String) :
    ∀ (drones : List Drone) (acc : List DeliveryPlan × List Package × Cache),
      (∀ pl ∈ (drones.foldl (planFoldStep cities warehouse) acc).1,
          pl ∈ acc.1 ∨ ∃ dr ∈ drones, pl.drone_id = dr.id ∧
            weightSum pl.packages ≤ dr.max_weight ∧ pl.total_distance ≤ dr.max_distance) ∧
      (∀ x : Package,
          (plansPackages (drones.foldl (planFoldStep cities warehouse) acc).1).count x +
            ((drones.foldl (planFoldStep cities warehouse) acc).2.1).count x ≤
          (plansPackages acc.1).count x + acc.2.1.count x) := by
  intro drones
  induction drones with
  | nil =>
    intro acc
    constructor
    · intro pl h
      exact Or.inl h
    · intro x
      simp
  | cons d ds ih =>
    intro acc
    rcases hstep : planLoop cities warehouse d (acc.2.1.length + 1) acc.2.2 acc.2.1
      with ⟨plans, rem, c'⟩
    have hfs : planFoldStep cities warehouse acc d = (acc.1 ++ plans, rem, c') := by
      simp [planFoldStep, hstep]
    obtain ⟨hp, hc⟩ := planLoop_spec cities warehouse d (acc.2.1.length + 1) acc.2.2 acc.2.1
    rw [hstep] at hp hc
    dsimp only at hc
    obtain ⟨ihp, ihc⟩ := ih (planFoldStep cities warehouse acc d)
    simp only [List.foldl_cons]
    constructor
    · intro pl hmem
      rcases ihp pl hmem with hin | ⟨dr, hdr, hq⟩
      · rw [hfs] at hin
        rcases List.mem_append.mp hin with h | h
        · exact Or.inl h
        · exact Or.inr ⟨d, List.mem_cons_self d ds, hp pl h⟩
      · exact Or.inr ⟨dr, List.mem_cons_of_mem _ hdr, hq⟩
    · intro x
      have h1 := ihc x
      rw [hfs] at h1
      dsimp only at h1
      simp only [plansPackages_append, List.count_append] at h1
      have h2 := hc x
      rw [hfs]
      omega

theorem disjoint_of_count_le_one :
    ∀ ls : List (List Package), (∀ x : Package, ls.flatten.count x ≤ 1) →
      ls.Pairwise fun l l' => ∀ x ∈ l, ¬ x ∈ l' := by
  intro ls
  induction ls with
  | nil => intro h; simp
  | cons l rest ih =>
    intro h
    refine List.Pairwise.cons ?_ (ih ?_)
    · intro l' hl' x hxl hxl'
      have h1 : 0 < l.count x := List.count_pos_iff.mpr hxl
      have h2 : l'.count x ≤ rest.flatten.count x := by
        rw [List.count_flatten]
        exact List.single_le_sum (by simp) _ (List.mem_map_of_mem (List.count x) hl')
      have h3 : 0 < l'.count x := List.count_pos_iff.mpr hxl'
      have h4 := h x
      rw [List.flatten_cons, List.count_append] at h4
      omega
    · intro x
      have h4 := h x
      rw [List.flatten_cons, List.count_append] at h4
      omega

/-! ## Claim theorems (second group) -/

/-- C3: every trip emitted by plan_delivery belongs to one of the drones
passed in, its package weights sum to at most that drone maximum payload,
and its recorded total route distance is at most that drone maximum
range; across the whole result, no package value is recorded more often
than it occurs in the input pool, and if the input pool has no duplicates
then the package lists of distinct trips are pairwise disjoint (every
package appears in at most one trip). -/
theorem claim_C3_trip_limits (cache : Cache) (cities : Cities) (warehouse : String)
    (packages : List Package) (drones : List Drone) :
    (∀ pl ∈ (plan_delivery cache cities warehouse packages drones).1,
        ∃ dr ∈ drones, pl.drone_id = dr.id ∧ weightSum pl.packages ≤ dr.max_weight ∧
          pl.total_distance ≤ dr.max_distance) ∧
    (∀ x : Package,
        (plansPackages (plan_delivery cache cities warehouse packages drones).1).count x ≤
          packages.count x) ∧
    (packages.Nodup →
      ((plan_delivery cache cities warehouse packages drones).1.map
          DeliveryPlan.packages).Pairwise fun l l' => ∀ x ∈ l, ¬ x ∈ l') := by
  obtain ⟨hp, hc⟩ := plan_fold_spec cities warehouse drones ([], packages, cache)
  have hpd : (plan_delivery cache cities warehouse packages drones).1 =
      (drones.foldl (planFoldStep cities warehouse) ([], packages, cache)).1 := rfl
  have hcount : ∀ x : Package,
      (plansPackages (plan_delivery cache cities warehouse packages drones).1).count x ≤
        packages.count x := by
    intro x
    have h5 := hc x
    simp only [plansPackages_nil, List.count_nil, Nat.zero_add] at h5
    rw [hpd]
    omega
  refine ⟨?_, hcount, ?_⟩
  · intro pl hpl
    rcases hp pl hpl with h | h
    · simp at h
    · exact h
  · intro hnd
    have hone : ∀ x : Package,
        (((plan_delivery cache cities warehouse packages drones).1.map
          DeliveryPlan.packages).flatten).count x ≤ 1 := by
      intro x
      have h1 := hcount x
      have h2 := List.nodup_iff_count_le_one.mp hnd x
      have h3 : plansPackages (plan_delivery cache cities warehouse packages drones).1 =
          ((plan_delivery cache cities warehouse packages drones).1.map
            DeliveryPlan.packages).flatten := rfl
      rw [h3] at h1
      omega
    exact disjoint_of_count_le_one _ hone

/-- Witness for C3 on a one-package, one-drone scenario. -/
theorem claim_C3_trip_limits_witness :
    (∃ dr ∈ [c3drone], c3trip.drone_id = dr.id ∧ weightSum c3trip.packages ≤ dr.max_weight ∧
        c3trip.total_distance ≤ dr.max_distance) ∧
    ((plan_delivery [] c3cities "Warehouse" [c3pkg] [c3drone]).1.map
        DeliveryPlan.packages).Pairwise (fun l l' => ∀ x ∈ l, ¬ x ∈ l') :=
  ⟨(claim_C3_trip_limits [] c3cities "Warehouse" [c3pkg] [c3drone]).1 c3trip
      (by with_unfolding_all decide),
    (claim_C3_trip_limits [] c3cities "Warehouse" [c3pkg] [c3drone]).2.2
      (by with_unfolding_all decide)⟩

/-- C8: plan_delivery leaves its inputs unchanged.  The embedding threads
every piece of state the call can touch; the callers package list and the
drone records come back exactly as passed (the source copies the package
list on line 55 and never assigns a field of a Package or Drone), and
every package value recorded in a trip is one of the input packages - the
call invents and mutates nothing, its only product being the returned
trip list (plus the internal path cache). -/
theorem claim_C8_plan_frame (cache : Cache) (cities : Cities) (warehouse : String)
    (packages : List Package) (drones : List Drone) :
    (plan_delivery_effects cache cities warehouse packages drones).2.1 = packages ∧
    (plan_delivery_effects cache cities warehouse packages drones).2.2 = drones ∧
    ∀ pl ∈ (plan_delivery_effects cache cities warehouse packages drones).1.1,
      ∀ p ∈ pl.packages, p ∈ packages := by
  refine ⟨rfl, rfl, ?_⟩
  intro pl hpl p hp
  have hc := (plan_fold_spec cities warehouse drones ([], packages, cache)).2 p
  simp only [plansPackages_nil, List.count_nil, Nat.zero_add] at hc
  have hmem : p ∈ plansPackages
      ((drones.foldl (planFoldStep cities warehouse) ([], packages, cache)).1) := by
    refine List.mem_flatten.mpr ⟨pl.packages, ?_, hp⟩
    exact List.mem_map_of_mem DeliveryPlan.packages hpl
  have h1 : 0 < (plansPackages
      ((drones.foldl (planFoldStep cities warehouse) ([], packages, cache)).1)).count p :=
    List.count_pos_iff.mpr hmem
  exact List.count_pos_iff.mp (by omega)

/-- Witness for C8. -/
theorem claim_C8_plan_frame_witness :
    (plan_delivery_effects [] c8cities "Warehouse" [c8pkg] [c8drone]).2.1 = [c8pkg] ∧
    (plan_delivery_effects [] c8cities "Warehouse" [c8pkg] [c8drone]).2.2 = [c8drone] ∧
    c8pkg ∈ [c8pkg] :=
  ⟨(claim_C8_plan_frame [] c8cities "Warehouse" [c8pkg] [c8drone]).1,
    (claim_C8_plan_frame [] c8cities "Warehouse" [c8pkg] [c8drone]).2.1,
    (claim_C8_plan_frame [] c8cities "Warehouse" [c8pkg] [c8drone]).2.2
      c8trip (by with_unfolding_all decide) c8pkg (by with_unfolding_all decide)⟩

/-! ## Helper lemmas for the Dijkstra sentinel claim (C4) -/

theorem dlookup_ainsert (l : List (String × Option ℚ)) (k x : String) (q : Option ℚ) :
    dlookup (ainsert l k q) x = if k = x then q else dlookup l x := by
  unfold dlookup
  rw [alookup_ainsert]
  by_cases h : k = x <;> simp [h]

theorem connsOf_mem_activeAdj {cities : Cities} {c nb : String} {r : Route}
    (hmem : (nb, r) ∈ connsOf cities c) (hact : r.is_active = true) :
    activeAdj cities c nb := by
  unfold connsOf at hmem
  cases halo : alookup cities c with
  | none => rw [halo] at hmem; simp at hmem
  | some city =>
    rw [halo] at hmem
    exact ⟨city, r, halo, hmem, hact⟩

theorem relax_spec (cities : Cities) (start c : String) (d : ℚ) :
    ∀ (conns : List (String × Route)) (s : DState),
      (∀ e ∈ conns, e ∈ connsOf cities c) →
      Reach cities start c →
      (∀ d' x, (d', x) ∈ s.pq → distFin s x) →
      (∀ x ∈ s.visited, distFin s x) →
      (∀ x, distFin s x → Reach cities start x) →
      ((relax c d conns s).visited = s.visited ∧
        (∀ x, distFin s x → distFin (relax c d conns s) x) ∧
        (∀ e ∈ s.pq, e ∈ (relax c d conns s).pq) ∧
        (relax c d conns s).pq.length ≤ s.pq.length + conns.length ∧
        (∀ x, distFin (relax c d conns s) x →
          distFin s x ∨ ∃ d', (d', x) ∈ (relax c d conns s).pq) ∧
        (∀ d' x, (d', x) ∈ (relax c d conns s).pq → distFin (relax c d conns s) x) ∧
        (∀ nb r, (nb, r) ∈ conns → r.is_active = true → distFin (relax c d conns s) nb) ∧
        (∀ x, distFin (relax c d conns s) x → Reach cities start x)) := by
  intro conns
  induction conns with
  | nil =>
    intro s _ _ hpq hvis hrd
    refine ⟨rfl, fun x h => h, fun e he => he, by simp [relax], fun x h => Or.inl h,
      hpq, by simp, hrd⟩
  | cons nbr rest ih =>
    obtain ⟨nb, r⟩ := nbr
    intro s hsub hreach hpq hvis hrd
    have hsubr : ∀ e ∈ rest, e ∈ connsOf cities c := fun e he =>
      hsub e (List.mem_cons_of_mem _ he)
    by_cases hact : r.is_active = false
    · have hred : relax c d ((nb, r) :: rest) s = relax c d rest s := by
        simp only [relax]
        rw [if_pos hact]
      rw [hred]
      obtain ⟨h1, h2, h3, h4, h5, h6, h7, h8⟩ := ih s hsubr hreach hpq hvis hrd
      refine ⟨h1, h2, h3, by simpa using Nat.le_succ_of_le h4, h5, h6, ?_, h8⟩
      intro nb' r' hmem hact'
      rcases List.mem_cons.mp hmem with hmem | hmem
      · have he₂ : r' = r := congrArg Prod.snd hmem
        rw [he₂, hact] at hact'
        simp at hact'
      · exact h7 nb' r' hmem hact'
    · by_cases hvism : s.visited.contains nb
      · have hred : relax c d ((nb, r) :: rest) s = relax c d rest s := by
          simp only [relax]
          rw [if_neg hact, if_pos hvism]
        rw [hred]
        obtain ⟨h1, h2, h3, h4, h5, h6, h7, h8⟩ := ih s hsubr hreach hpq hvis hrd
        refine ⟨h1, h2, h3, by simpa using Nat.le_succ_of_le h4, h5, h6, ?_, h8⟩
        intro nb' r' hmem hact'
        rcases List.mem_cons.mp hmem with hmem | hmem
        · have he₁ : nb' = nb := congrArg Prod.fst hmem
          rw [he₁]
          have hm : nb ∈ s.visited := by simpa using hvism
          exact h2 nb (hvis nb hm)
        · exact h7 nb' r' hmem hact'
      · by_cases hlt : qltOpt (d + r.distance) (dlookup s.dist nb) = true
        · set s₁ : DState := { s with
            dist := ainsert s.dist nb (some (d + r.distance))
            prev := ainsert s.prev nb (some c)
            pq := s.pq ++ [(d + r.distance, nb)] } with hs₁
          have hred : relax c d ((nb, r) :: rest) s = relax c d rest s₁ := by
            simp only [relax]
            rw [if_neg hact, if_neg hvism, if_pos hlt]
          have hmono₀ : ∀ x, distFin s x → distFin s₁ x := by
            intro x h
            show dlookup (ainsert s.dist nb (some (d + r.distance))) x ≠ none
            rw [dlookup_ainsert]
            by_cases hx : nb = x
            · simp [hx]
            · simpa [hx] using h
          have hfin₁ : distFin s₁ nb := by
            show dlookup (ainsert s.dist nb (some (d + r.distance))) nb ≠ none
            rw [dlookup_ainsert]
            simp
          have hactT : r.is_active = true := by simpa using hact
          have hadj : activeAdj cities c nb :=
            connsOf_mem_activeAdj (hsub (nb, r) (List.mem_cons_self _ _)) hactT
          have hpq₁ : ∀ d' x, (d', x) ∈ s₁.pq → distFin s₁ x := by
            intro d' x hx
            rcases List.mem_append.mp hx with hx | hx
            · exact hmono₀ x (hpq d' x hx)
            · simp only [List.mem_singleton, Prod.mk.injEq] at hx
              rw [hx.2]
              exact hfin₁
          have hvis₁ : ∀ x ∈ s₁.visited, distFin s₁ x := fun x hx => hmono₀ x (hvis x hx)
          have hrd₁ : ∀ x, distFin s₁ x → Reach cities start x := by
            intro x h
            by_cases hx : nb = x
            · rw [← hx]
              exact Relation.ReflTransGen.tail hreach hadj
            · refine hrd x ?_
              have h' : dlookup (ainsert s.dist nb (some (d + r.distance))) x ≠ none := h
              rwa [dlookup_ainsert, if_neg hx] at h'
          obtain ⟨g1, g2, g3, g4, g5, g6, g7, g8⟩ := ih s₁ hsubr hreach hpq₁ hvis₁ hrd₁
          rw [hred]
          refine ⟨g1, ?_, ?_, ?_, ?_, g6, ?_, g8⟩
          · intro x h
            exact g2 x (hmono₀ x h)
          · intro e he
            exact g3 e (List.mem_append.mpr (Or.inl he))
          · have hlen : s₁.pq.length = s.pq.length + 1 := by simp [hs₁]
            calc (relax c d rest s₁).pq.length ≤ s₁.pq.length + rest.length := g4
              _ = s.pq.length + 1 + rest.length := by rw [hlen]
              _ = s.pq.length + ((nb, r) :: rest).length := by simp; omega
          · intro x h
            rcases g5 x h with h' | h'
            · by_cases hx : nb = x
              · refine Or.inr ⟨d + r.distance, g3 _ (List.mem_append.mpr (Or.inr ?_))⟩
                simp [hx]
              · left
                have h'' : dlookup (ainsert s.dist nb (some (d + r.distance))) x ≠ none := h'
                rwa [dlookup_ainsert, if_neg hx] at h''
            · exact Or.inr h'
          · intro nb' r' hmem hact'
            rcases List.mem_cons.mp hmem with hmem | hmem
            · have he₁ : nb' = nb := congrArg Prod.fst hmem
              rw [he₁]
              exact g2 nb hfin₁
            · exact g7 nb' r' hmem hact'
        · have hz : distFin s nb := by
            intro hnone
            rw [hnone] at hlt
            simp [qltOpt] at hlt
          have hred : relax c d ((nb, r) :: rest) s = relax c d rest s := by
            simp only [relax]
            rw [if_neg hact, if_neg hvism, if_neg hlt]
          rw [hred]
          obtain ⟨h1, h2, h3, h4, h5, h6, h7, h8⟩ := ih s hsubr hreach hpq hvis hrd
          refine ⟨h1, h2, h3, by simpa using Nat.le_succ_of_le h4, h5, h6, ?_, h8⟩
          intro nb' r' hmem hact'
          rcases List.mem_cons.mp hmem with hmem | hmem
          · have he₁ : nb' = nb := congrArg Prod.fst hmem
            rw [he₁]
            exact h2 nb hz
          · exact h7 nb' r' hmem hact'

theorem contains_true_iff (l : List String) (a : String) :
    l.contains a = true ↔ a ∈ l := by
  simp

theorem contains_append_single (vis : List String) (c x : String) :
    (vis ++ [c]).contains x = true ↔ (x ∈ vis ∨ x = c) := by
  simp

theorem bnot_cond_true {b : Bool} (h : ¬ b = true) : (!b) = true := by
  cases b
  · rfl
  · exact absurd rfl h

theorem bnot_cond_false {b : Bool} (h : b = true) : ¬ (!b) = true := by
  rw [h]
  simp

theorem remDeg_congr (cities : Cities) (vis vis' : List String)
    (h : ∀ kc ∈ cities, vis'.contains kc.1 = vis.contains kc.1) :
    remDeg cities vis' = remDeg cities vis := by
  unfold remDeg
  rw [List.filter_congr (fun kc hkc => by rw [h kc hkc])]

theorem remDeg_append_le (cities : Cities) (vis : List String) (c : String) :
    remDeg cities (vis ++ [c]) ≤ remDeg cities vis := by
  induction cities with
  | nil => simp [remDeg]
  | cons kc rest ih =>
    by_cases h : (vis ++ [c]).contains kc.1
    · have h2 : remDeg (kc :: rest) (vis ++ [c]) = remDeg rest (vis ++ [c]) := by
        simp only [remDeg, List.filter_cons]
        rw [if_neg (bnot_cond_false h)]
      by_cases h3 : vis.contains kc.1
      · have h4 : remDeg (kc :: rest) vis = remDeg rest vis := by
          simp only [remDeg, List.filter_cons]
          rw [if_neg (bnot_cond_false h3)]
        omega
      · have h4 : remDeg (kc :: rest) vis = kc.2.connections.length + remDeg rest vis := by
          simp only [remDeg, List.filter_cons]
          rw [if_pos (bnot_cond_true h3)]
          simp [remDeg]
        omega
    · have hv : ¬ vis.contains kc.1 = true := by
        intro hvv
        exact h ((contains_append_single vis c kc.1).mpr
          (Or.inl ((contains_true_iff vis kc.1).mp hvv)))
      have h2 : remDeg (kc :: rest) (vis ++ [c]) =
          kc.2.connections.length + remDeg rest (vis ++ [c]) := by
        simp only [remDeg, List.filter_cons]
        rw [if_pos (bnot_cond_true h)]
        simp [remDeg]
      have h4 : remDeg (kc :: rest) vis = kc.2.connections.length + remDeg rest vis := by
        simp only [remDeg, List.filter_cons]
        rw [if_pos (bnot_cond_true hv)]
        simp [remDeg]
      omega

theorem remDeg_visit (cities : Cities) (vis : List String) (c : String) (city : City)
    (hnd : KeysNodup cities) (hc : alookup cities c = some city)
    (hcv : ¬ vis.contains c = true) :
    remDeg cities (vis ++ [c]) + city.connections.length = remDeg cities vis := by
  induction cities with
  | nil => simp [alookup] at hc
  | cons kc rest ih =>
    have hnd' : KeysNodup rest := by
      have hx := hnd
      simp only [KeysNodup, List.map_cons, List.nodup_cons] at hx
      exact hx.2
    have hkeys : kc.1 ∉ rest.map Prod.fst := by
      have hx := hnd
      simp only [KeysNodup, List.map_cons, List.nodup_cons] at hx
      exact hx.1
    by_cases hk : kc.1 = c
    · have hcity : kc.2 = city := by
        obtain ⟨k₀, v₀⟩ := kc
        simp only [alookup] at hc
        rw [if_pos hk] at hc
        simpa using hc
      have hrest : ∀ kc' ∈ rest, ((vis ++ [c]).contains kc'.1) = (vis.contains kc'.1) := by
        intro kc' hkc'
        have hne : kc'.1 ≠ c := by
          intro hq
          refine hkeys ?_
          rw [hk, ← hq]
          exact List.mem_map_of_mem Prod.fst hkc'
        simp [hne]
      have hcong := remDeg_congr rest vis (vis ++ [c]) hrest
      have hkc : (vis ++ [c]).contains kc.1 = true :=
        (contains_append_single vis c kc.1).mpr (Or.inr hk)
      have h2 : remDeg (kc :: rest) (vis ++ [c]) = remDeg rest (vis ++ [c]) := by
        simp only [remDeg, List.filter_cons]
        rw [if_neg (bnot_cond_false hkc)]
      have hnv : ¬ vis.contains kc.1 = true := by
        rw [hk]
        exact hcv
      have h4 : remDeg (kc :: rest) vis = kc.2.connections.length + remDeg rest vis := by
        simp only [remDeg, List.filter_cons]
        rw [if_pos (bnot_cond_true hnv)]
        simp [remDeg]
      rw [h2, h4, hcong, hcity]
      omega
    · have hc' : alookup rest c = some city := by
        obtain ⟨k₀, v₀⟩ := kc
        simp only [alookup] at hc
        rw [if_neg hk] at hc
        exact hc
      have hrec := ih hnd' hc'
      by_cases h3 : vis.contains kc.1
      · have hcc : (vis ++ [c]).contains kc.1 = true :=
          (contains_append_single vis c kc.1).mpr
            (Or.inl ((contains_true_iff vis kc.1).mp h3))
        have h2 : remDeg (kc :: rest) (vis ++ [c]) = remDeg rest (vis ++ [c]) := by
          simp only [remDeg, List.filter_cons]
          rw [if_neg (bnot_cond_false hcc)]
        have h4 : remDeg (kc :: rest) vis = remDeg rest vis := by
          simp only [remDeg, List.filter_cons]
          rw [if_neg (bnot_cond_false h3)]
        omega
      · have hncc : ¬ (vis ++ [c]).contains kc.1 = true := by
          intro hq
          rcases (contains_append_single vis c kc.1).mp hq with hq | hq
          · exact h3 ((contains_true_iff vis kc.1).mpr hq)
          · exact hk hq
        have h2 : remDeg (kc :: rest) (vis ++ [c]) =
            kc.2.connections.length + remDeg rest (vis ++ [c]) := by
          simp only [remDeg, List.filter_cons]
          rw [if_pos (bnot_cond_true hncc)]
          simp [remDeg]
        have h4 : remDeg (kc :: rest) vis = kc.2.connections.length + remDeg rest vis := by
          simp only [remDeg, List.filter_cons]
          rw [if_pos (bnot_cond_true h3)]
          simp [remDeg]
        omega

theorem remDeg_nil_vis (cities : Cities) :
    remDeg cities [] = (cities.map fun kc => kc.2.connections.length).sum := by
  unfold remDeg
  rw [List.filter_eq_self.mpr (fun kc hkc => by simp)]

theorem dloop_sound (cities : Cities) (start goal : String) :
    ∀ (fuel : Nat) (s : DState),
      (∀ d x, (d, x) ∈ s.pq → distFin s x) →
      (∀ x ∈ s.visited, distFin s x) →
      (∀ x, distFin s x → Reach cities start x) →
      ((∀ d x, (d, x) ∈ (dloop cities goal fuel s).pq →
          distFin (dloop cities goal fuel s) x) ∧
        (∀ x ∈ (dloop cities goal fuel s).visited, distFin (dloop cities goal fuel s) x) ∧
        (∀ x, distFin (dloop cities goal fuel s) x → Reach cities start x)) := by
  intro fuel
  induction fuel with
  | zero =>
    intro s hpq hvis hrd
    exact ⟨hpq, hvis, hrd⟩
  | succ fuel ih =>
    intro s hpq hvis hrd
    cases hp : popMin s.pq with
    | none =>
      have hred : dloop cities goal (fuel + 1) s = s := by
        simp only [dloop, hp]
      rw [hred]
      exact ⟨hpq, hvis, hrd⟩
    | some pr =>
      obtain ⟨⟨d, c⟩, rest⟩ := pr
      obtain ⟨hm, hcov, hlen, hsubp, hmin⟩ := popMin_spec hp
      by_cases hgoal : c = goal
      · have hred : dloop cities goal (fuel + 1) s = { s with pq := rest } := by
          simp only [dloop, hp]
          rw [if_pos hgoal]
        rw [hred]
        refine ⟨?_, hvis, hrd⟩
        intro d' x hx
        exact hpq d' x (hsubp (d', x) hx)
      · by_cases hvism : s.visited.contains c
        · have hred : dloop cities goal (fuel + 1) s =
              dloop cities goal fuel { s with pq := rest } := by
            simp only [dloop, hp]
            rw [if_neg hgoal, if_pos hvism]
          rw [hred]
          refine ih { s with pq := rest } ?_ hvis hrd
          intro d' x hx
          exact hpq d' x (hsubp (d', x) hx)
        · set s₁ : DState := { s with pq := rest, visited := s.visited ++ [c] } with hs₁
          have hred : dloop cities goal (fuel + 1) s =
              dloop cities goal fuel (relax c d (connsOf cities c) s₁) := by
            simp only [dloop, hp]
            rw [if_neg hgoal, if_neg hvism]
          have hfinc : distFin s c := hpq d c hm
          have hreach : Reach cities start c := hrd c hfinc
          have hpq₁ : ∀ d' x, (d', x) ∈ s₁.pq → distFin s₁ x := fun d' x hx =>
            hpq d' x (hsubp (d', x) hx)
          have hvis₁ : ∀ x ∈ s₁.visited, distFin s₁ x := by
            intro x hx
            rcases List.mem_append.mp hx with hx | hx
            · exact hvis x hx
            · simp only [List.mem_singleton] at hx
              rw [hx]
              exact hfinc
          have hrd₁ : ∀ x, distFin s₁ x → Reach cities start x := hrd
          obtain ⟨g1, g2, g3, g4, g5, g6, g7, g8⟩ :=
            relax_spec cities start c d (connsOf cities c) s₁ (fun e he => he) hreach
              hpq₁ hvis₁ hrd₁
          have hvis₂ : ∀ x ∈ (relax c d (connsOf cities c) s₁).visited,
              distFin (relax c d (connsOf cities c) s₁) x := by
            intro x hx
            rw [g1] at hx
            exact g2 x (hvis₁ x hx)
          rw [hred]
          exact ih (relax c d (connsOf cities c) s₁) g6 hvis₂ g8

theorem dloop_post (cities : Cities) (start goal : String) (hnd : KeysNodup cities) :
    ∀ (fuel : Nat) (s : DState), LInv cities start s →
      s.pq.length + remDeg cities s.visited ≤ fuel →
      distFin (dloop cities goal fuel s) goal ∨
        (LInv cities start (dloop cities goal fuel s) ∧ (dloop cities goal fuel s).pq = []) := by
  intro fuel
  induction fuel with
  | zero =>
    intro s hinv hfuel
    right
    have hpq : s.pq = [] := List.length_eq_zero.mp (by omega)
    exact ⟨hinv, hpq⟩
  | succ fuel ih =>
    intro s hinv hfuel
    cases hp : popMin s.pq with
    | none =>
      right
      have hred : dloop cities goal (fuel + 1) s = s := by
        simp only [dloop, hp]
      rw [hred]
      exact ⟨hinv, (popMin_none_iff s.pq).mp hp⟩
    | some pr =>
      obtain ⟨⟨d, c⟩, rest⟩ := pr
      obtain ⟨hm, hcov, hlen, hsubp, hmin⟩ := popMin_spec hp
      by_cases hgoal : c = goal
      · left
        have hred : dloop cities goal (fuel + 1) s = { s with pq := rest } := by
          simp only [dloop, hp]
          rw [if_pos hgoal]
        rw [hred]
        show distFin { s with pq := rest } goal
        have hfing : distFin s goal := by
          rw [← hgoal]
          exact hinv.finPq d c hm
        exact hfing
      · by_cases hvism : s.visited.contains c
        · have hred : dloop cities goal (fuel + 1) s =
              dloop cities goal fuel { s with pq := rest } := by
            simp only [dloop, hp]
            rw [if_neg hgoal, if_pos hvism]
          rw [hred]
          refine ih { s with pq := rest } ?_ ?_
          · refine ⟨hinv.finStart, ?_, hinv.finVisited, ?_, hinv.visitedEdges,
              hinv.reachDist⟩
            · intro d' x hx
              exact hinv.finPq d' x (hsubp (d', x) hx)
            · intro x hfx
              rcases hinv.frontier x hfx with hx | ⟨d', hx⟩
              · exact Or.inl hx
              · rcases hcov (d', x) hx with he | he
                · have hxc : x = c := congrArg Prod.snd he
                  rw [hxc]
                  exact Or.inl ((contains_true_iff _ _).mp hvism)
                · exact Or.inr ⟨d', he⟩
          · show rest.length + remDeg cities s.visited ≤ fuel
            omega
        · set s₁ : DState := { s with pq := rest, visited := s.visited ++ [c] } with hs₁
          have hred : dloop cities goal (fuel + 1) s =
              dloop cities goal fuel (relax c d (connsOf cities c) s₁) := by
            simp only [dloop, hp]
            rw [if_neg hgoal, if_neg hvism]
          have hfinc : distFin s c := hinv.finPq d c hm
          have hreach : Reach cities start c := hinv.reachDist c hfinc
          have hpq₁ : ∀ d' x, (d', x) ∈ s₁.pq → distFin s₁ x := fun d' x hx =>
            hinv.finPq d' x (hsubp (d', x) hx)
          have hvis₁ : ∀ x ∈ s₁.visited, distFin s₁ x := by
            intro x hx
            rcases List.mem_append.mp hx with hx | hx
            · exact hinv.finVisited x hx
            · simp only [List.mem_singleton] at hx
              rw [hx]
              exact hfinc
          have hrd₁ : ∀ x, distFin s₁ x → Reach cities start x := hinv.reachDist
          obtain ⟨g1, g2, g3, g4, g5, g6, g7, g8⟩ :=
            relax_spec cities start c d (connsOf cities c) s₁ (fun e he => he) hreach
              hpq₁ hvis₁ hrd₁
          have hinv₂ : LInv cities start (relax c d (connsOf cities c) s₁) := by
            refine ⟨g2 start hinv.finStart, g6, ?_, ?_, ?_, g8⟩
            · intro x hx
              rw [g1] at hx
              exact g2 x (hvis₁ x hx)
            · intro x hfx
              rcases g5 x hfx with hx | hx
              · rcases hinv.frontier x hx with hxv | ⟨d', hxe⟩
                · refine Or.inl ?_
                  rw [g1]
                  exact List.mem_append.mpr (Or.inl hxv)
                · rcases hcov (d', x) hxe with he | he
                  · have hxc : x = c := congrArg Prod.snd he
                    refine Or.inl ?_
                    rw [g1, hxc]
                    exact List.mem_append.mpr (Or.inr (by simp))
                  · exact Or.inr ⟨d', g3 (d', x) he⟩
              · exact Or.inr hx
            · intro u hu nb r hmem hact
              rw [g1] at hu
              rcases List.mem_append.mp hu with hu | hu
              · exact g2 nb (hinv.visitedEdges u hu nb r hmem hact)
              · simp only [List.mem_singleton] at hu
                rw [hu] at hmem
                exact g7 nb r hmem hact
          rw [hred]
          refine ih (relax c d (connsOf cities c) s₁) hinv₂ ?_
          have hlen₂ : (relax c d (connsOf cities c) s₁).pq.length ≤
              rest.length + (connsOf cities c).length := g4
          have hvisr : (relax c d (connsOf cities c) s₁).visited = s.visited ++ [c] := g1
          rw [hvisr]
          cases halo : alookup cities c with
          | none =>
            have hclen : (connsOf cities c).length = 0 := by
              simp [connsOf, halo]
            have hmono := remDeg_append_le cities s.visited c
            omega
          | some city =>
            have hclen : (connsOf cities c).length = city.connections.length := by
              simp [connsOf, halo]
            have hvisit := remDeg_visit cities s.visited c city hnd halo hvism
            omega

theorem pathChain_ne_nil (prev : List (String × Option String)) (fuel : Nat)
    (current : String) : pathChain prev fuel current ≠ [] := by
  cases fuel with
  | zero => simp [pathChain]
  | succ fuel => simp [pathChain]

theorem alookup_init_dist (cities : Cities) (x : String) (o : Option ℚ)
    (h : alookup (cities.map fun kc => (kc.1, (none : Option ℚ))) x = some o) :
    o = none := by
  induction cities with
  | nil => simp [alookup] at h
  | cons kc rest ih =>
    obtain ⟨k0, c0⟩ := kc
    by_cases hk : k0 = x
    · simp [alookup, hk] at h
      exact h.symm
    · simp only [List.map_cons, alookup, if_neg hk] at h
      exact ih h

theorem dlookup_init_eq_start (cities : Cities) (start x : String)
    (h : dlookup (ainsert (cities.map fun kc => (kc.1, (none : Option ℚ)))
      start (some 0)) x ≠ none) : x = start := by
  by_contra hx
  apply h
  unfold dlookup
  rcases halo : alookup (cities.map fun kc => (kc.1, (none : Option ℚ))) x with _ | o
  · rw [alookup_ainsert_ne _ _ _ _ (fun he => hx he.symm), halo]
  · have ho := alookup_init_dist cities x o halo
    rw [alookup_ainsert_ne _ _ _ _ (fun he => hx he.symm), halo, ho]

theorem linv_init (cities : Cities) (start : String) :
    LInv cities start
      { dist := ainsert (cities.map fun kc => (kc.1, (none : Option ℚ))) start (some 0)
        prev := cities.map fun kc => (kc.1, (none : Option String))
        pq := [(0, start)]
        visited := [] } := by
  have hfin : distFin
      { dist := ainsert (cities.map fun kc => (kc.1, (none : Option ℚ))) start (some 0)
        prev := cities.map fun kc => (kc.1, (none : Option String))
        pq := [(0, start)]
        visited := [] } start := by
    unfold distFin dlookup
    rw [alookup_ainsert_self]
    simp
  refine ⟨hfin, ?_, ?_, ?_, ?_, ?_⟩
  · intro d x hx
    simp only [List.mem_singleton] at hx
    have hxs : x = start := congrArg Prod.snd hx
    rw [hxs]
    exact hfin
  · intro x hx
    simp at hx
  · intro x hfx
    have hxs : x = start := dlookup_init_eq_start cities start x hfx
    right
    exact ⟨0, by rw [hxs]; simp⟩
  · intro u hu
    simp at hu
  · intro x hfx
    have hxs : x = start := dlookup_init_eq_start cities start x hfx
    rw [hxs]
    exact Relation.ReflTransGen.refl

theorem reach_all_visited (cities : Cities) (start : String) (s : DState)
    (hinv : LInv cities start s) (hpq : s.pq = []) :
    ∀ x, Reach cities start x → distFin s x := by
  intro x hx
  induction hx with
  | refl => exact hinv.finStart
  | tail hab hbc ih =>
    obtain ⟨city, r, halo, hmem, hact⟩ := hbc
    rcases hinv.frontier _ ih with hv | ⟨d, hd⟩
    · exact hinv.visitedEdges _ hv _ r (by unfold connsOf; rw [halo]; exact hmem) hact
    · rw [hpq] at hd
      simp at hd

/-- C4: on a cache miss and a duplicate-free city table, dijkstra returns
the pair ([], none) - the empty path with the unreachable sentinel, which
Option keeps disjoint from every finite distance - exactly when start is
absent, goal is absent, or no active-link path connects start to goal;
every other result is a non-empty path with a finite distance. -/
theorem claim_C4_unreachable_sentinel (cache : Cache) (cities : Cities)
    (start goal : String) (hmiss : alookup cache (start, goal) = none)
    (hnd : KeysNodup cities) :
    ((dijkstra cache cities start goal).1 = ([], none) ↔
      (containsKey cities start = false ∨ containsKey cities goal = false ∨
        ¬ Reach cities start goal)) ∧
    (∀ p q, (dijkstra cache cities start goal).1 = (p, q) →
      (p = [] ∧ q = none) ∨ (p ≠ [] ∧ ∃ dv, q = some dv)) := by
  by_cases hc : (containsKey cities start && containsKey cities goal) = true
  · have hab : containsKey cities start = true ∧ containsKey cities goal = true := by
      simpa [Bool.and_eq_true] using hc
    have hstart := hab.1
    have hgoal := hab.2
    have hinv0 := linv_init cities start
    have hfuelb : (([((0 : ℚ), start)] : List Entry).length) +
        remDeg cities ([] : List String) ≤ dijkstraFuel cities := by
      rw [remDeg_nil_vis]
      unfold dijkstraFuel
      simp
    have hpost := dloop_post cities start goal hnd (dijkstraFuel cities) _ hinv0 hfuelb
    have hsound := dloop_sound cities start goal (dijkstraFuel cities) _
      hinv0.finPq hinv0.finVisited hinv0.reachDist
    rcases hdg : dlookup (dloop cities goal (dijkstraFuel cities)
        { dist := ainsert (cities.map fun kc => (kc.1, (none : Option ℚ))) start (some 0)
          prev := cities.map fun kc => (kc.1, (none : Option String))
          pq := [(0, start)]
          visited := [] }).dist goal with _ | dGoal
    · have hres : (dijkstra cache cities start goal).1 = ([], none) := by
        simp only [dijkstra, hmiss]
        rw [if_pos hc, hdg]
      have hnr : ¬ Reach cities start goal := by
        intro hr
        rcases hpost with hfing | ⟨hinv1, hpq1⟩
        · exact hfing hdg
        · exact reach_all_visited cities start _ hinv1 hpq1 goal hr hdg
      constructor
      · rw [hres]
        constructor
        · intro _
          exact Or.inr (Or.inr hnr)
        · intro _
          rfl
      · intro p q hpq
        rw [hres] at hpq
        exact Or.inl ⟨(congrArg Prod.fst hpq).symm, (congrArg Prod.snd hpq).symm⟩
    · have hres : (dijkstra cache cities start goal).1 =
          ((pathChain (dloop cities goal (dijkstraFuel cities)
            { dist := ainsert (cities.map fun kc => (kc.1, (none : Option ℚ))) start (some 0)
              prev := cities.map fun kc => (kc.1, (none : Option String))
              pq := [(0, start)]
              visited := [] }).prev (cities.length + 1) goal).reverse, some dGoal) := by
        simp only [dijkstra, hmiss]
        rw [if_pos hc, hdg]
      have hfing : distFin (dloop cities goal (dijkstraFuel cities)
          { dist := ainsert (cities.map fun kc => (kc.1, (none : Option ℚ))) start (some 0)
            prev := cities.map fun kc => (kc.1, (none : Option String))
            pq := [(0, start)]
            visited := [] }) goal := by
        unfold distFin
        rw [hdg]
        exact Option.some_ne_none dGoal
      have hreach : Reach cities start goal := hsound.2.2 goal hfing
      constructor
      · rw [hres]
        constructor
        · intro h
          exact (Option.some_ne_none dGoal (congrArg Prod.snd h)).elim
        · intro hrhs
          rcases hrhs with h | h | h
          · rw [hstart] at h
            exact absurd h (by decide)
          · rw [hgoal] at h
            exact absurd h (by decide)
          · exact absurd hreach h
      · intro p q hpq
        rw [hres] at hpq
        refine Or.inr ⟨?_, dGoal, (congrArg Prod.snd hpq).symm⟩
        have hp : p = (pathChain (dloop cities goal (dijkstraFuel cities)
            { dist := ainsert (cities.map fun kc => (kc.1, (none : Option ℚ))) start (some 0)
              prev := cities.map fun kc => (kc.1, (none : Option String))
              pq := [(0, start)]
              visited := [] }).prev (cities.length + 1) goal).reverse :=
          (congrArg Prod.fst hpq).symm
        rw [hp]
        intro hnil
        exact pathChain_ne_nil _ _ _ (List.reverse_eq_nil_iff.mp hnil)
  · have hres : (dijkstra cache cities start goal).1 = ([], none) := by
      simp only [dijkstra, hmiss]
      rw [if_neg hc]
    have hcf : containsKey cities start = false ∨ containsKey cities goal = false := by
      cases hs : containsKey cities start with
      | false => exact Or.inl rfl
      | true =>
        cases hg : containsKey cities goal with
        | false => exact Or.inr rfl
        | true =>
          exact absurd (by simp [hs, hg] :
            (containsKey cities start && containsKey cities goal) = true) hc
    constructor
    · rw [hres]
      constructor
      · intro _
        rcases hcf with h | h
        · exact Or.inl h
        · exact Or.inr (Or.inl h)
      · intro _
        rfl
    · intro p q hpq
      rw [hres] at hpq
      exact Or.inl ⟨(congrArg Prod.fst hpq).symm, (congrArg Prod.snd hpq).symm⟩

/-- Witness for C4 on the one-link network Warehouse-CityA: the query to
the absent CityB hits the sentinel side of the equivalence, instantiated
with an empty cache and the computed city table. -/
theorem claim_C4_unreachable_sentinel_witness :
    ((dijkstra [] c4cities "Warehouse" "CityB").1 = ([], none) ↔
      (containsKey c4cities "Warehouse" = false ∨ containsKey c4cities "CityB" = false ∨
        ¬ Reach c4cities "Warehouse" "CityB")) ∧
    (∀ p q, (dijkstra [] c4cities "Warehouse" "CityB").1 = (p, q) →
      (p = [] ∧ q = none) ∨ (p ≠ [] ∧ ∃ dv, q = some dv)) :=
  claim_C4_unreachable_sentinel [] c4cities "Warehouse" "CityB" rfl
    (by unfold KeysNodup; with_unfolding_all decide)

end DronePlan
